import Mathlib

/-!
# Verification of the expense-tracker read-path subsystem

A shallow embedding, in Lean, of the in-process LRU cache
(`LRUCache`, `generateCacheKey` in `src/unnamed/part_019`) and of the
query helpers (`paginate`, `encodeCursor`, `decodeCursor` in
`src/unnamed/part_020`), together with theorems settling the frozen
claims about that code.

Modelling conventions:
* A JavaScript `Map` is an association list `List (String × _)` in
  insertion order (JS `Map` iterates in insertion order; `Map.set` on an
  existing key keeps its position, `Map.delete` + `Map.set` moves it to
  the end).
* `Date.now()` is an explicit `now : Nat` argument (milliseconds).
* JS `undefined`-able values are `Option`; a JS `x || d` default with a
  numeric `x` treats `0` as falsy (`jsOr`), a string default treats `""`
  as falsy (`jsTruthy`).
* `number` inputs that the code only compares and clamps (`page`,
  `limit`) are `Int`; values that are always non-negative (timestamps,
  TTLs, sizes) are `Nat`. JS `now - timestamp > ttl` on a clock that ran
  backwards is false for `ttl ≥ 0`, exactly as Nat truncated subtraction
  gives, so `Nat` subtraction is faithful here.
* Functions that can throw (`new RegExp` on a malformed pattern,
  `JSON.parse` on garbage) return `Except`/`Option`.
-/

/-! ## JS helpers -/

/-- JS `x || d` for an optional numeric `x`: `undefined` and `0` are falsy. -/
def jsOr (v : Option Nat) (d : Nat) : Nat :=
  match v with
  | none => d
  | some 0 => d
  | some (n + 1) => n + 1

/-- JS truthiness of an optional string: `undefined`, `null` and `""` are falsy. -/
def jsTruthy (v : Option String) : Bool :=
  match v with
  | none => false
  | some s => !s.isEmpty

/-! ## Cache data model (src/unnamed/part_019) -/

/-- `CacheEntry<T>`: `{ value, timestamp, hits, ttl }`. -/
structure CacheEntry (T : Type) where
  value : T
  timestamp : Nat
  hits : Nat
  ttl : Nat
deriving DecidableEq

/-- `CacheStats`: `{ hits, misses, size, hitRate, evictions }`.
`hitRate` is a JS number computed as `hits / total * 100`; modelled as `ℚ`. -/
structure CacheStats where
  hits : Nat
  misses : Nat
  size : Nat
  hitRate : ℚ
  evictions : Nat
deriving DecidableEq

/-- `CacheOptions`: `{ maxSize?, defaultTTL?, cleanupInterval? }`. -/
structure CacheOptions where
  maxSize : Option Nat := none
  defaultTTL : Option Nat := none
  cleanupInterval : Option Nat := none

/-- `LRUCache<T>`: the `Map` (as an insertion-ordered association list),
the configured capacity and default TTL, and the statistics record.
The cleanup timer handle is real-time machinery and carries no data. -/
structure LRUCache (T : Type) where
  cache : List (String × CacheEntry T)
  maxSize : Nat
  defaultTTL : Nat
  stats : CacheStats

/-- The constructor: `maxSize = options.maxSize || 500`,
`defaultTTL = options.defaultTTL || 5 * 60 * 1000`, empty map, zero stats. -/
def mkLRUCache (T : Type) (options : CacheOptions) : LRUCache T :=
  { cache := []
    maxSize := jsOr options.maxSize 500
    defaultTTL := jsOr options.defaultTTL (5 * 60 * 1000)
    stats := { hits := 0, misses := 0, size := 0, hitRate := 0, evictions := 0 } }

/-! ### JS `Map` operations on the ordered association list -/

/-- `Map.get`: first (and, invariantly, only) binding of the key. -/
def mapGet {T : Type} : List (String × CacheEntry T) → String → Option (CacheEntry T)
  | [], _ => none
  | (k, e) :: rest, key => if k = key then some e else mapGet rest key

/-- `Map.has`. -/
def mapHasKey {T : Type} (m : List (String × CacheEntry T)) (key : String) : Bool :=
  (mapGet m key).isSome

/-- `Map.delete`: removes the binding of the key, keeping the rest in order. -/
def mapDelete {T : Type} : List (String × CacheEntry T) → String → List (String × CacheEntry T)
  | [], _ => []
  | (k, e) :: rest, key => if k = key then rest else (k, e) :: mapDelete rest key

/-- `Map.set`: overwrites in place (keeping insertion position) if the key is
present, otherwise appends at the most-recently-inserted end. -/
def mapSet {T : Type} : List (String × CacheEntry T) → String → CacheEntry T →
    List (String × CacheEntry T)
  | [], key, e => [(key, e)]
  | (k, e0) :: rest, key, e =>
    if k = key then (k, e) :: rest else (k, e0) :: mapSet rest key e

/-- The ordered key list of a cache: head is least recently touched. -/
def keysOf {T : Type} (c : LRUCache T) : List String :=
  c.cache.map Prod.fst

/-- `updateHitRate()`: `hitRate = total > 0 ? hits / total * 100 : 0`. -/
def updateHitRate (s : CacheStats) : CacheStats :=
  let total := s.hits + s.misses
  { s with hitRate := if total > 0 then (s.hits : ℚ) / (total : ℚ) * 100 else 0 }

/-- `get(key)`: miss on absent key; lazy-expiry delete (counted as a miss and
an eviction) when `now - timestamp > ttl`; otherwise a hit that bumps the
entry's hit counter and moves the entry to the most-recently-used end by
delete + re-insert. Returns the JS return value and the updated cache. -/
def LRUCache.get {T : Type} (c : LRUCache T) (key : String) (now : Nat) :
    Option T × LRUCache T :=
  match mapGet c.cache key with
  | none =>
    (none, { c with stats := updateHitRate { c.stats with misses := c.stats.misses + 1 } })
  | some entry =>
    if now - entry.timestamp > entry.ttl then
      (none, { c with
        cache := mapDelete c.cache key
        stats := updateHitRate { c.stats with
          misses := c.stats.misses + 1
          evictions := c.stats.evictions + 1 } })
    else
      let entry2 := { entry with hits := entry.hits + 1 }
      (some entry.value, { c with
        cache := mapSet (mapDelete c.cache key) key entry2
        stats := updateHitRate { c.stats with hits := c.stats.hits + 1 } })

/-- `set(key, value, ttl?)`: if the map is at capacity and the key is new,
delete the first key (least recently used) and count an eviction; then store
`{ value, timestamp: Date.now(), hits: 0, ttl: ttl || defaultTTL }` and
refresh `stats.size`. -/
def LRUCache.set {T : Type} (c : LRUCache T) (key : String) (value : T)
    (ttl : Option Nat) (now : Nat) : LRUCache T :=
  let c1 :=
    if c.maxSize ≤ c.cache.length ∧ ¬ mapHasKey c.cache key then
      match c.cache with
      | [] => c
      | (firstKey, _) :: _ =>
        { c with
          cache := mapDelete c.cache firstKey
          stats := { c.stats with evictions := c.stats.evictions + 1 } }
    else c
  let entry : CacheEntry T :=
    { value := value, timestamp := now, hits := 0, ttl := jsOr ttl c.defaultTTL }
  let cache2 := mapSet c1.cache key entry
  { c1 with cache := cache2, stats := { c1.stats with size := cache2.length } }

/-- `delete(key)`: remove if present, refresh `stats.size`, report presence. -/
def LRUCache.delete {T : Type} (c : LRUCache T) (key : String) :
    Bool × LRUCache T :=
  let deleted := mapHasKey c.cache key
  let cache2 := mapDelete c.cache key
  (deleted, { c with cache := cache2, stats := { c.stats with size := cache2.length } })

/-- `clear()`: drop all entries, reset `stats.size` only. -/
def LRUCache.clear {T : Type} (c : LRUCache T) : LRUCache T :=
  { c with cache := [], stats := { c.stats with size := 0 } }

/-- `has(key)`: the same expiry check as `get`, deleting a lapsed entry, but
with no statistics update and no reordering. -/
def LRUCache.has {T : Type} (c : LRUCache T) (key : String) (now : Nat) :
    Bool × LRUCache T :=
  match mapGet c.cache key with
  | none => (false, c)
  | some entry =>
    if now - entry.timestamp > entry.ttl then
      (false, { c with cache := mapDelete c.cache key })
    else
      (true, c)

/-- `getStats()`: a copy of the stats record. -/
def LRUCache.getStats {T : Type} (c : LRUCache T) : CacheStats :=
  c.stats

/-- `getOrSet(key, fallback, ttl?)` for a value type that can itself be
`undefined` (`Option V`): `const cached = this.get(key)` observes the stored
value, so a stored `undefined` is indistinguishable from a miss; when
`cached !== undefined` fails, the producer runs (its resolved value is the
`producerResult` argument) and the result is `set`. Returns the value, the
updated cache, and whether the producer was invoked. -/
def LRUCache.getOrSet {V : Type} (c : LRUCache (Option V)) (key : String)
    (producerResult : Option V) (ttl : Option Nat) (now : Nat) :
    Option V × LRUCache (Option V) × Bool :=
  let r := c.get key now
  match r.1 with
  | some (some v) => (some v, r.2, false)
  | _ =>
    let c2 := r.2.set key producerResult ttl now
    (producerResult, c2, true)

/-! ## Pattern deletion (`deletePattern`, src/unnamed/part_019 lines 167-180)

The source builds
`new RegExp(pattern.replace(/\*/g, ".*").replace(/:/g, "\\:"))`
and deletes every key `k` with `regex.test(k)`.

* The translation only rewrites `*` to `.*` and escapes `:` (a no-op, since
  `\:` matches `:`); it escapes no other regex metacharacter.
* `RegExp.prototype.test` is an UNANCHORED search: it succeeds when any
  substring of the key matches the regex.
* `new RegExp` throws a `SyntaxError` when the translated pattern is not a
  syntactically valid regex (e.g. an unbalanced parenthesis).

We embed the platform pieces as follows: `globToRegexChars` is the literal
translation; `regexSyntaxOk` models the constructor's syntax check (the
unbalanced-parenthesis case, which is the relevant failure mode here); and
for patterns whose non-`*` characters are regex-literal (`GlobLiteral`),
the translated regex is `s₀.*s₁.*…sₙ` for the literal segments `sᵢ` of the
pattern. Its `test` semantics, embedded by `regexTest` below: the search
tries every start position, and without the `s` flag the `.` of each
translated `.*` matches every character EXCEPT the ECMAScript line
terminators (`\n`, `\r`, U+2028, U+2029) — so the text between
consecutive segments must be line-terminator-free, while the text before
the first segment (skipped by the search) and after the last segment is
arbitrary. -/

/-- Split a pattern into its literal segments, the texts between `*`s
(`splitStar "a*b"` = `[['a'],['b']]`, with empty segments for leading,
trailing or doubled stars). -/
def splitStar : List Char → List (List Char)
  | [] => [[]]
  | '*' :: rest => [] :: splitStar rest
  | c :: rest =>
    match splitStar rest with
    | [] => [[c]]
    | s :: ss => (c :: s) :: ss

/-- Bool test that `s` is an initial run of `l`. -/
def listLead : List Char → List Char → Bool
  | [], _ => true
  | _ :: _, [] => false
  | a :: as, b :: bs => a = b && listLead as bs

/-- An ECMAScript line terminator: `\n`, `\r`, U+2028, U+2029 — the
characters a flagless `.` does NOT match. -/
def isLineTerm (c : Char) : Bool :=
  c = '\x0a' || c = '\x0d' || c.toNat = 8232 || c.toNat = 8233

/-- Continue matching `.*s₁.*s₂…` at an exact position: some
line-terminator-free gap (the `.*`), then the next literal segment, then
recursively the rest. Tries every split point, as the regex engine's
backtracking does. -/
def matchTail : List (List Char) → List Char → Bool
  | [], _ => true
  | s :: ss, key =>
    (List.range (key.length + 1)).any fun i =>
      (key.take i).all (fun c => !isLineTerm c) && listLead s (key.drop i)
        && matchTail ss ((key.drop i).drop s.length)

/-- `RegExp.prototype.test` of the flagless regex `s₀.*s₁.*…sₙ` (segments
`s₀ … sₙ`): unanchored, so the engine tries every start position for `s₀`;
between consecutive segments each `.*` gap must be free of line
terminators. -/
def regexTest (segs : List (List Char)) (key : List Char) : Bool :=
  match segs with
  | [] => true
  | s :: ss =>
    (List.range (key.length + 1)).any fun j =>
      listLead s (key.drop j) && matchTail ss ((key.drop j).drop s.length)

/-- `pattern.replace(/\*/g, ".*").replace(/:/g, "\\:")`, character for
character. -/
def globToRegexChars (p : List Char) : List Char :=
  let step1 := (p.map (fun c => if c = '*' then ['.', '*'] else [c])).flatten
  (step1.map (fun c => if c = ':' then ['\\', c] else [c])).flatten

/-- Parenthesis balance check with an open-paren depth counter. -/
def parenBalanced : List Char → Nat → Bool
  | [], d => d = 0
  | c :: rest, d =>
    if c = '(' then parenBalanced rest (d + 1)
    else if c = ')' then
      match d with
      | 0 => false
      | d' + 1 => parenBalanced rest d'
    else parenBalanced rest d

/-- Models the platform `new RegExp` syntax check on the translated pattern:
a regex with unbalanced parentheses is a `SyntaxError`. -/
def regexSyntaxOk (s : List Char) : Bool :=
  parenBalanced s 0

/-- The regex metacharacters that the source's translation leaves unescaped. -/
def regexMeta : List Char :=
  ['\\', '^', '$', '.', '|', '?', '+', '(', ')', '[', ']', '\x7b', '\x7d']

/-- A pattern in the fragment the embedding models exactly: every character
is either the `*` wildcard or a regex-literal character (`:` included). -/
def GlobLiteral (p : List Char) : Prop :=
  ∀ c ∈ p, c ≠ '*' → c ∉ regexMeta

/-- The loop of `deletePattern`: delete every matching key, counting. -/
def deleteMatching {T : Type} (test : String → Bool) :
    List (String × CacheEntry T) → Nat × List (String × CacheEntry T)
  | [] => (0, [])
  | (k, e) :: rest =>
    let r := deleteMatching test rest
    if test k then (r.1 + 1, r.2) else (r.1, (k, e) :: r.2)

/-- `deletePattern(pattern)`: compile the translated pattern (throwing —
`Except.error` — on invalid regex syntax), delete every key the unanchored
regex search accepts, refresh `stats.size`, return the deleted count. -/
def LRUCache.deletePattern {T : Type} (c : LRUCache T) (pattern : String) :
    Except String (Nat × LRUCache T) :=
  if regexSyntaxOk (globToRegexChars pattern.data) then
    let test := fun k : String => regexTest (splitStar pattern.data) k.data
    let r := deleteMatching test c.cache
    Except.ok (r.1,
      { c with cache := r.2, stats := { c.stats with size := r.2.length } })
  else
    Except.error "SyntaxError: Invalid regular expression"

/-! ## Cache keys (`generateCacheKey`, src/unnamed/part_019 lines 317-325) -/

/-- `generateCacheKey(userId, resource, suffix?)`: the template literal
`user:${userId}:${resource}:${suffix}` when `suffix` is truthy (so neither
absent, `null`, nor `""`), else `user:${userId}:${resource}`. -/
def generateCacheKey (userId resource : String) (suffix : Option String) : String :=
  if jsTruthy suffix then
    "user:" ++ userId ++ ":" ++ resource ++ ":" ++ suffix.getD ""
  else
    "user:" ++ userId ++ ":" ++ resource

/-- A left fold of `set` operations `(key, value, ttl, now)`. -/
def setFold (T : Type) (c : LRUCache T) :
    List (String × T × Option Nat × Nat) → LRUCache T
  | [] => c
  | (k, v, ttl, now) :: ops => setFold T (c.set k v ttl now) ops


/-! ## Spec-side glob semantics (for comparison with `deletePattern`)

`specGlobMatches` is written from the spec's words, not from the source:
"`*` as a wildcard matching any substring; every other character matches
literally … deletes every key whose full string matches". `regexTestSpec`
is the declarative counterpart of what the source's `regex.test` actually
implements: the literal segments occur in order, the text between
consecutive segments is free of line terminators (flagless `.`), and the
text before the first and after the last segment is arbitrary. -/

/-- Modelled from the spec (§4.1 `deletePattern`): full-string glob match,
`*` matching any substring, every other character only itself. -/
def specGlobMatches : List Char → List Char → Bool
  | [], s => s.isEmpty
  | '*' :: g, s => (List.range (s.length + 1)).any fun i => specGlobMatches g (s.drop i)
  | _ :: _, [] => false
  | c :: g, c2 :: s => c == c2 && specGlobMatches g s

/-- Declarative tail semantics at an exact position: a line-terminator-free
gap, the next segment, and so on. -/
def SegsGapped : List (List Char) → List Char → Prop
  | [], _ => True
  | s :: ss, key =>
    ∃ gap rest, key = gap ++ s ++ rest
      ∧ gap.all (fun c => !isLineTerm c) = true ∧ SegsGapped ss rest

/-- Declarative unanchored search: an arbitrary skipped prefix, the first
segment, then the gapped tail
(`key = pre ++ s₀ ++ gap₁ ++ s₁ ++ … ++ sₙ ++ post`, each `gapᵢ`
line-terminator-free, `pre` and `post` arbitrary). -/
def regexTestSpec : List (List Char) → List Char → Prop
  | [], _ => True
  | s :: ss, key => ∃ pre rest, key = pre ++ s ++ rest ∧ SegsGapped ss rest

/-! ## Offset pagination (`paginate`, src/unnamed/part_020 lines 519-568)

The sort, skip and limit run inside the store; the embedding takes the full
sorted sequence of matching documents (`docs`) as given and performs the
`skip`/`limit` window on it, exactly as the store would. `total` is
`countDocuments` of the same filter, i.e. `docs.length`. `Math.ceil(total /
validLimit)` on JS numbers equals `(total + validLimit - 1) / validLimit`
in integer arithmetic for `validLimit ≥ 1`. -/

/-- The `pagination` envelope of a `PaginationResult`. -/
structure PaginationEnvelope where
  page : Nat
  limit : Nat
  total : Nat
  totalPages : Nat
  hasNextPage : Bool
  hasPrevPage : Bool
deriving DecidableEq

/-- `PaginationResult<T>`: `{ data, pagination }`. -/
structure PaginationResult (T : Type) where
  data : List T
  pagination : PaginationEnvelope

/-- `paginate(query, { page, limit })`: `validPage = Math.max(1, page)`,
`validLimit = Math.min(Math.max(1, limit), 100)`,
`skip = (validPage - 1) * validLimit`, window the data, and build the
envelope with `totalPages = Math.ceil(total / validLimit)`,
`hasNextPage = validPage < totalPages`, `hasPrevPage = validPage > 1`. -/
def paginate (T : Type) (docs : List T) (page limit : Int) : PaginationResult T :=
  let validPage : Int := max 1 page
  let validLimit : Int := min (max 1 limit) 100
  let vp := validPage.toNat
  let vl := validLimit.toNat
  let skip := (vp - 1) * vl
  let total := docs.length
  let totalPages := (total + vl - 1) / vl
  { data := (docs.drop skip).take vl
    pagination :=
      { page := vp
        limit := vl
        total := total
        totalPages := totalPages
        hasNextPage := decide (vp < totalPages)
        hasPrevPage := decide (1 < vp) } }

/-! ## Cursor codec (`encodeCursor`/`decodeCursor`, src/unnamed/part_020
lines 635-644)

`encodeCursor(value) = Buffer.from(JSON.stringify(value)).toString("base64")`
and `decodeCursor(cursor) = JSON.parse(Buffer.from(cursor,
"base64").toString("utf-8"))`.

The JS builtins are embedded as executable functions:
* `JsonValue` models the JSON-serializable scalar sort values the cursors
  carry — integer-valued numbers (`num`, as `Int`; fractional doubles are
  floating point and outside this model) and strings (`str`, which is how
  a date sorts once serialized: JSON has no date type, `JSON.stringify`
  renders a `Date` as its ISO string).
* `jsonStringifyChars` is `JSON.stringify` on those scalars, with the
  standard quote/backslash/control escapes; `jsonParseChars` is
  `JSON.parse` restricted to the same scalar grammar (a thrown
  `SyntaxError` is `none`). Lone UTF-16 surrogates cannot occur in a Lean
  `Char`, so strings here are the well-formed-Unicode JS strings.
* `utf8Encode`/`utf8Decode` are `Buffer.from(string)` /
  `buffer.toString("utf-8")`; `b64EncodeBytes`/`b64DecodeChars` are
  `buffer.toString("base64")` / `Buffer.from(string, "base64")` with the
  standard alphabet and `=` padding (the decoder skips padding characters,
  as Node does). -/

/-- A JSON-serializable cursor sort value: integer number or string. -/
inductive JsonValue where
  | num (n : Int)
  | str (s : String)
deriving DecidableEq

/-- The decimal digit character for `d < 10`. -/
def digitChar (d : Nat) : Char := Char.ofNat (48 + d)

/-- Numeric value of a decimal digit character. -/
def charDigitVal (c : Char) : Nat := c.toNat - 48

/-- Is `c` one of `'0'`-`'9'`? -/
def isDigitCh (c : Char) : Bool := 48 ≤ c.toNat && c.toNat ≤ 57

/-- Decimal digits of `n`, most significant first (empty for `0`). -/
def natChars (n : Nat) : List Char := ((Nat.digits 10 n).map digitChar).reverse

/-- Read a decimal digit string back as a number. -/
def natFromChars (ds : List Char) : Nat := ds.foldl (fun a c => a * 10 + charDigitVal c) 0

/-- `JSON.stringify` of an integer-valued number. -/
def jsonNumChars (n : Int) : List Char :=
  if n = 0 then ['0']
  else if 0 < n then natChars n.toNat
  else '-' :: natChars (-n).toNat

/-- Lowercase hex digit character for `d < 16`. -/
def hexDigitChar (d : Nat) : Char :=
  if d < 10 then Char.ofNat (48 + d) else Char.ofNat (87 + d)

/-- The `JSON.stringify` escape of one string character: `\"`, `\\`, the
named control escapes `\b \t \n \f \r`, `\u00XX` for other control
characters, and the character itself otherwise. -/
def escapeChar (c : Char) : List Char :=
  if c = '"' then ['\\', '"']
  else if c = '\\' then ['\\', '\\']
  else if c = '\x08' then ['\\', 'b']
  else if c = '\x09' then ['\\', 't']
  else if c = '\x0a' then ['\\', 'n']
  else if c = '\x0c' then ['\\', 'f']
  else if c = '\x0d' then ['\\', 'r']
  else if c.toNat < 32 then
    ['\\', 'u', '0', '0', hexDigitChar (c.toNat / 16), hexDigitChar (c.toNat % 16)]
  else [c]

/-- `JSON.stringify` on a scalar `JsonValue`. -/
def jsonStringifyChars : JsonValue → List Char
  | .num n => jsonNumChars n
  | .str s => '"' :: ((s.data.map escapeChar).flatten ++ ['"'])

/-- Value of a hex digit character (either case), if it is one. -/
def hexVal (c : Char) : Option Nat :=
  if 48 ≤ c.toNat ∧ c.toNat ≤ 57 then some (c.toNat - 48)
  else if 97 ≤ c.toNat ∧ c.toNat ≤ 102 then some (c.toNat - 87)
  else if 65 ≤ c.toNat ∧ c.toNat ≤ 70 then some (c.toNat - 55)
  else none

/-- The character with code point `n`, when `n` is a Unicode scalar value. -/
def charOfNat? (n : Nat) : Option Char :=
  if h : n.isValidChar then some (Char.ofNatAux n h) else none

/-- `JSON.parse` of a string body after the opening quote: the decoded
characters and the remainder after the closing quote. -/
def parseStringBody : List Char → Option (List Char × List Char)
  | [] => none
  | c :: rest =>
    if c = '"' then some ([], rest)
    else if c = '\\' then
      match rest with
      | [] => none
      | e :: rest2 =>
        if e = '"' then (parseStringBody rest2).map (fun r => ('"' :: r.1, r.2))
        else if e = '\\' then (parseStringBody rest2).map (fun r => ('\\' :: r.1, r.2))
        else if e = '/' then (parseStringBody rest2).map (fun r => ('/' :: r.1, r.2))
        else if e = 'b' then (parseStringBody rest2).map (fun r => ('\x08' :: r.1, r.2))
        else if e = 't' then (parseStringBody rest2).map (fun r => ('\x09' :: r.1, r.2))
        else if e = 'n' then (parseStringBody rest2).map (fun r => ('\x0a' :: r.1, r.2))
        else if e = 'f' then (parseStringBody rest2).map (fun r => ('\x0c' :: r.1, r.2))
        else if e = 'r' then (parseStringBody rest2).map (fun r => ('\x0d' :: r.1, r.2))
        else if e = 'u' then
          match rest2 with
          | h1 :: h2 :: h3 :: h4 :: rest3 =>
            match hexVal h1, hexVal h2, hexVal h3, hexVal h4 with
            | some v1, some v2, some v3, some v4 =>
              match charOfNat? (v1 * 4096 + v2 * 256 + v3 * 16 + v4) with
              | some ch => (parseStringBody rest3).map (fun r => (ch :: r.1, r.2))
              | none => none
            | _, _, _, _ => none
          | _ => none
        else none
    else if c.toNat < 32 then none
    else (parseStringBody rest).map (fun r => (c :: r.1, r.2))
termination_by l => l.length
decreasing_by all_goals simp_wf <;> omega

/-- `JSON.parse` on the scalar grammar `JSON.stringify` emits: a quoted
string or an optionally negated digit run consuming all input. -/
def jsonParseChars : List Char → Option JsonValue
  | [] => none
  | c :: rest =>
    if c = '"' then
      match parseStringBody rest with
      | some (s, []) => some (.str ⟨s⟩)
      | _ => none
    else if c = '-' then
      if rest ≠ [] ∧ rest.all isDigitCh then some (.num (-(natFromChars rest : Int)))
      else none
    else if (c :: rest).all isDigitCh then some (.num (natFromChars (c :: rest)))
    else none

/-- UTF-8 bytes of one scalar value. -/
def utf8EncodeChar (c : Char) : List Nat :=
  let n := c.toNat
  if n < 128 then [n]
  else if n < 2048 then [192 + n / 64, 128 + n % 64]
  else if n < 65536 then [224 + n / 4096, 128 + n / 64 % 64, 128 + n % 64]
  else [240 + n / 262144, 128 + n / 4096 % 64, 128 + n / 64 % 64, 128 + n % 64]

/-- UTF-8 encoding of a character sequence. -/
def utf8Encode (l : List Char) : List Nat := (l.map utf8EncodeChar).flatten

/-- UTF-8 decoding (strict: continuation ranges, no overlong forms, scalar
values only). -/
def utf8Decode : List Nat → Option (List Char)
  | [] => some []
  | b :: rest =>
    if b < 128 then
      (charOfNat? b).bind fun c => (utf8Decode rest).map (c :: ·)
    else
      match rest with
      | [] => none
      | b2 :: rest2 =>
        if b < 192 then none
        else if b < 224 then
          if 128 ≤ b2 ∧ b2 < 192 then
            let n := (b - 192) * 64 + (b2 - 128)
            if 128 ≤ n then
              (charOfNat? n).bind fun c => (utf8Decode rest2).map (c :: ·)
            else none
          else none
        else
          match rest2 with
          | [] => none
          | b3 :: rest3 =>
            if b < 240 then
              if (128 ≤ b2 ∧ b2 < 192) ∧ (128 ≤ b3 ∧ b3 < 192) then
                let n := (b - 224) * 4096 + (b2 - 128) * 64 + (b3 - 128)
                if 2048 ≤ n then
                  (charOfNat? n).bind fun c => (utf8Decode rest3).map (c :: ·)
                else none
              else none
            else
              match rest3 with
              | [] => none
              | b4 :: rest4 =>
                if b < 248 then
                  if (128 ≤ b2 ∧ b2 < 192) ∧ (128 ≤ b3 ∧ b3 < 192)
                      ∧ (128 ≤ b4 ∧ b4 < 192) then
                    let n := (b - 240) * 262144 + (b2 - 128) * 4096
                      + (b3 - 128) * 64 + (b4 - 128)
                    if 65536 ≤ n then
                      (charOfNat? n).bind fun c => (utf8Decode rest4).map (c :: ·)
                    else none
                  else none
                else none

/-- Base64 alphabet character of a sextet. -/
def b64Char (d : Nat) : Char :=
  if d < 26 then Char.ofNat (65 + d)
  else if d < 52 then Char.ofNat (97 + (d - 26))
  else if d < 62 then Char.ofNat (48 + (d - 52))
  else if d = 62 then '+'
  else '/'

/-- Standard base64 encoding with `=` padding, three bytes a group. -/
def b64EncodeBytes : List Nat → List Char
  | [] => []
  | [b1] => [b64Char (b1 / 4), b64Char (b1 % 4 * 16), '=', '=']
  | [b1, b2] =>
    [b64Char (b1 / 4), b64Char (b1 % 4 * 16 + b2 / 16), b64Char (b2 % 16 * 4), '=']
  | b1 :: b2 :: b3 :: rest =>
    b64Char (b1 / 4) :: b64Char (b1 % 4 * 16 + b2 / 16)
      :: b64Char (b2 % 16 * 4 + b3 / 64) :: b64Char (b3 % 64) :: b64EncodeBytes rest

/-- Sextet value of a base64 alphabet character. -/
def b64Val (c : Char) : Option Nat :=
  if 65 ≤ c.toNat ∧ c.toNat ≤ 90 then some (c.toNat - 65)
  else if 97 ≤ c.toNat ∧ c.toNat ≤ 122 then some (c.toNat - 97 + 26)
  else if 48 ≤ c.toNat ∧ c.toNat ≤ 57 then some (c.toNat - 48 + 52)
  else if c = '+' then some 62
  else if c = '/' then some 63
  else none

/-- Base64 decoding of a padding-free sextet character run. -/
def b64DecodeCore : List Char → Option (List Nat)
  | [] => some []
  | [_] => none
  | [c1, c2] =>
    match b64Val c1, b64Val c2 with
    | some v1, some v2 => some [v1 * 4 + v2 / 16]
    | _, _ => none
  | [c1, c2, c3] =>
    match b64Val c1, b64Val c2, b64Val c3 with
    | some v1, some v2, some v3 => some [v1 * 4 + v2 / 16, v2 % 16 * 16 + v3 / 4]
    | _, _, _ => none
  | c1 :: c2 :: c3 :: c4 :: rest =>
    match b64Val c1, b64Val c2, b64Val c3, b64Val c4, b64DecodeCore rest with
    | some v1, some v2, some v3, some v4, some bs =>
      some ((v1 * 4 + v2 / 16) :: (v2 % 16 * 16 + v3 / 4) :: (v3 % 4 * 64 + v4) :: bs)
    | _, _, _, _, _ => none

/-- `Buffer.from(string, "base64")`: padding characters are skipped. -/
def b64DecodeChars (cs : List Char) : Option (List Nat) :=
  b64DecodeCore (cs.filter (fun c => c != '='))

/-- `encodeCursor(value)`: base64 of the UTF-8 bytes of the JSON text. -/
def encodeCursor (value : JsonValue) : String :=
  ⟨b64EncodeBytes (utf8Encode (jsonStringifyChars value))⟩

/-- `decodeCursor(cursor)`: decode base64, decode UTF-8, `JSON.parse`; any
failure in the chain is a thrown error, modelled as `none`. -/
def decodeCursor (cursor : String) : Option JsonValue :=
  match b64DecodeChars cursor.data with
  | none => none
  | some bytes =>
    match utf8Decode bytes with
    | none => none
    | some chars => jsonParseChars chars



/-- A concrete cache with three namespaced keys, two of them for user 42. -/
def sampleC1Cache : LRUCache Nat :=
  (((mkLRUCache Nat ⟨some 10, none, none⟩).set "user:42:categories" 1 none 0).set
    "user:7:categories" 2 none 0).set "user:42:profile" 3 none 0

/-- A concrete cache (capacity 5, default TTL 9) holding a stored
`undefined` under `"k"`, inserted at time 0. -/
def sampleUndefCache : LRUCache (Option Nat) :=
  (mkLRUCache (Option Nat) ⟨some 5, some 9, none⟩).set "k" none none 0



/-- A suffix argument in the injective fragment of `generateCacheKey`:
either absent or a nonempty string without the `:` separator. -/
def SuffixOk (s : Option String) : Prop :=
  s = none ∨ ∃ t, s = some t ∧ t ≠ "" ∧ ':' ∉ t.data


/-! ## Association-list lemmas -/

theorem mapGet_eq_none_iff {T : Type} (m : List (String × CacheEntry T)) (k : String) :
    mapGet m k = none ↔ k ∉ m.map Prod.fst := by
  induction m with
  | nil => simp [mapGet]
  | cons p rest ih =>
    obtain ⟨k0, e0⟩ := p
    by_cases h : k0 = k
    · subst h
      simp [mapGet]
    · simp [mapGet, h, ih, Ne.symm h]

theorem mapHasKey_eq_true_iff {T : Type} (m : List (String × CacheEntry T)) (k : String) :
    mapHasKey m k = true ↔ k ∈ m.map Prod.fst := by
  rw [mapHasKey, Option.isSome_iff_ne_none]
  rw [ne_eq, mapGet_eq_none_iff m k]
  simp

theorem mapHasKey_eq_false_iff {T : Type} (m : List (String × CacheEntry T)) (k : String) :
    mapHasKey m k = false ↔ k ∉ m.map Prod.fst := by
  rw [← mapHasKey_eq_true_iff]
  simp

theorem keys_mapDelete {T : Type} (m : List (String × CacheEntry T)) (k : String) :
    (mapDelete m k).map Prod.fst = (m.map Prod.fst).erase k := by
  induction m with
  | nil => simp [mapDelete]
  | cons p rest ih =>
    obtain ⟨k0, e0⟩ := p
    by_cases h : k0 = k
    · subst h
      simp [mapDelete, List.erase_cons]
    · simp [mapDelete, h, List.erase_cons, ih]

theorem mapGet_mapSet_self {T : Type} (m : List (String × CacheEntry T)) (k : String)
    (e : CacheEntry T) : mapGet (mapSet m k e) k = some e := by
  induction m with
  | nil => simp [mapSet, mapGet]
  | cons p rest ih =>
    obtain ⟨k0, e0⟩ := p
    by_cases h : k0 = k
    · subst h
      simp [mapSet, mapGet]
    · simp [mapSet, mapGet, h, ih]

theorem keys_mapSet {T : Type} (m : List (String × CacheEntry T)) (k : String)
    (e : CacheEntry T) :
    (mapSet m k e).map Prod.fst =
      if k ∈ m.map Prod.fst then m.map Prod.fst else m.map Prod.fst ++ [k] := by
  induction m with
  | nil => simp [mapSet]
  | cons p rest ih =>
    obtain ⟨k0, e0⟩ := p
    by_cases h : k0 = k
    · subst h
      simp [mapSet]
    · simp only [mapSet, if_neg h, List.map_cons, ih]
      by_cases hm : k ∈ rest.map Prod.fst
      · simp [hm, Ne.symm h]
      · simp [hm, Ne.symm h]

theorem length_mapSet {T : Type} (m : List (String × CacheEntry T)) (k : String)
    (e : CacheEntry T) :
    (mapSet m k e).length =
      if k ∈ m.map Prod.fst then m.length else m.length + 1 := by
  have h1 : (mapSet m k e).length = ((mapSet m k e).map Prod.fst).length := by
    simp
  rw [h1, keys_mapSet]
  by_cases h : k ∈ m.map Prod.fst <;> simp [h]

theorem length_mapDelete {T : Type} (m : List (String × CacheEntry T)) (k : String) :
    (mapDelete m k).length =
      if k ∈ m.map Prod.fst then m.length - 1 else m.length := by
  have h1 : (mapDelete m k).length = ((mapDelete m k).map Prod.fst).length := by
    simp
  rw [h1, keys_mapDelete, List.length_erase]
  by_cases h : k ∈ m.map Prod.fst <;> simp [h]

theorem mapGet_mapDelete_of_nodup {T : Type} (m : List (String × CacheEntry T))
    (k : String) (hnd : (m.map Prod.fst).Nodup) : mapGet (mapDelete m k) k = none := by
  induction m with
  | nil => simp [mapDelete, mapGet]
  | cons p rest ih =>
    obtain ⟨k0, e0⟩ := p
    simp only [List.map_cons, List.nodup_cons] at hnd
    by_cases h : k0 = k
    · subst h
      simp only [mapDelete, if_pos rfl]
      exact (mapGet_eq_none_iff rest k0).mpr hnd.1
    · simp [mapDelete, h, mapGet, ih hnd.2]

theorem mapGet_mapSet_ne {T : Type} (m : List (String × CacheEntry T)) (k k' : String)
    (e : CacheEntry T) (h : k' ≠ k) : mapGet (mapSet m k e) k' = mapGet m k' := by
  induction m with
  | nil => simp [mapSet, mapGet, Ne.symm h]
  | cons p rest ih =>
    obtain ⟨k0, e0⟩ := p
    by_cases h0 : k0 = k
    · subst h0
      simp [mapSet, mapGet, Ne.symm h]
    · simp [mapSet, mapGet, h0, ih]

/-! ## Cache operation lemmas -/

theorem set_maxSize {T : Type} (c : LRUCache T) (key : String) (v : T)
    (ttl : Option Nat) (now : Nat) : (c.set key v ttl now).maxSize = c.maxSize := by
  rw [LRUCache.set]
  split
  · split <;> rfl
  · rfl

theorem set_defaultTTL {T : Type} (c : LRUCache T) (key : String) (v : T)
    (ttl : Option Nat) (now : Nat) : (c.set key v ttl now).defaultTTL = c.defaultTTL := by
  rw [LRUCache.set]
  split
  · split <;> rfl
  · rfl

/-- `set` on a key that is already present: the eviction branch is skipped and
the entry is overwritten in place. -/
theorem set_cache_of_has {T : Type} (c : LRUCache T) (key : String) (v : T)
    (ttl : Option Nat) (now : Nat) (h : mapHasKey c.cache key = true) :
    (c.set key v ttl now).cache
        = mapSet c.cache key ⟨v, now, 0, jsOr ttl c.defaultTTL⟩
      ∧ (c.set key v ttl now).stats.evictions = c.stats.evictions := by
  rw [LRUCache.set]
  have hcond : ¬ (c.maxSize ≤ c.cache.length ∧ ¬ mapHasKey c.cache key) := by
    intro hc
    exact hc.2 (by simp [h])
  rw [if_neg hcond]
  exact ⟨rfl, rfl⟩

/-- `set` on a new key while under capacity: no eviction, plain append. -/
theorem set_cache_of_new_small {T : Type} (c : LRUCache T) (key : String) (v : T)
    (ttl : Option Nat) (now : Nat) (h : mapHasKey c.cache key = false)
    (hlen : c.cache.length < c.maxSize) :
    (c.set key v ttl now).cache
        = mapSet c.cache key ⟨v, now, 0, jsOr ttl c.defaultTTL⟩
      ∧ (c.set key v ttl now).stats.evictions = c.stats.evictions := by
  rw [LRUCache.set]
  have hcond : ¬ (c.maxSize ≤ c.cache.length ∧ ¬ mapHasKey c.cache key) := by
    intro hc
    omega
  rw [if_neg hcond]
  exact ⟨rfl, rfl⟩

/-- `set` on a new key at (or beyond) capacity, nonempty map: the first key is
deleted and one eviction is counted before the insert. -/
theorem set_cache_of_new_full {T : Type} (c : LRUCache T) (key : String) (v : T)
    (ttl : Option Nat) (now : Nat) (k0 : String) (e0 : CacheEntry T)
    (rest : List (String × CacheEntry T))
    (h : mapHasKey c.cache key = false) (hlen : c.maxSize ≤ c.cache.length)
    (hc : c.cache = (k0, e0) :: rest) :
    (c.set key v ttl now).cache
        = mapSet (mapDelete c.cache k0) key ⟨v, now, 0, jsOr ttl c.defaultTTL⟩
      ∧ (c.set key v ttl now).stats.evictions = c.stats.evictions + 1 := by
  rw [LRUCache.set]
  have hcond : c.maxSize ≤ c.cache.length ∧ ¬ mapHasKey c.cache key := by
    exact ⟨hlen, by simp [h]⟩
  rw [if_pos hcond]
  rw [hc]
  exact ⟨rfl, rfl⟩

/-- The binding stored by `set` for its own key. -/
theorem mapGet_set_self {T : Type} (c : LRUCache T) (key : String) (v : T)
    (ttl : Option Nat) (now : Nat) :
    mapGet (c.set key v ttl now).cache key
      = some ⟨v, now, 0, jsOr ttl c.defaultTTL⟩ := by
  rw [LRUCache.set]
  split
  · split
    · exact mapGet_mapSet_self _ _ _
    · exact mapGet_mapSet_self _ _ _
  · exact mapGet_mapSet_self _ _ _

/-- `set` on an empty map inserts the single new binding (also when
`maxSize = 0`, where the eviction branch fires but finds no first key). -/
theorem set_cache_of_empty {T : Type} (c : LRUCache T) (key : String) (v : T)
    (ttl : Option Nat) (now : Nat) (hc : c.cache = []) :
    (c.set key v ttl now).cache = [(key, ⟨v, now, 0, jsOr ttl c.defaultTTL⟩)]
      ∧ (c.set key v ttl now).stats.evictions = c.stats.evictions := by
  rw [LRUCache.set]
  split <;> simp [hc, mapSet]

/-- Exact length of the map after `set`. -/
theorem set_cache_length {T : Type} (c : LRUCache T) (key : String) (v : T)
    (ttl : Option Nat) (now : Nat) :
    (c.set key v ttl now).cache.length =
      if mapHasKey c.cache key then c.cache.length
      else if c.maxSize ≤ c.cache.length ∧ 1 ≤ c.cache.length then c.cache.length
      else c.cache.length + 1 := by
  by_cases h : mapHasKey c.cache key = true
  · rw [(set_cache_of_has c key v ttl now h).1, length_mapSet,
      if_pos ((mapHasKey_eq_true_iff _ _).mp h), if_pos h]
  · have hfalse : mapHasKey c.cache key = false := by simpa using h
    have hnot : key ∉ c.cache.map Prod.fst := (mapHasKey_eq_false_iff _ _).mp hfalse
    rw [if_neg h]
    by_cases hfull : c.maxSize ≤ c.cache.length ∧ 1 ≤ c.cache.length
    · rw [if_pos hfull]
      rcases hcc : c.cache with _ | ⟨⟨k0, e0⟩, rest⟩
      · exfalso
        rw [hcc] at hfull
        simp at hfull
      · rw [(set_cache_of_new_full c key v ttl now k0 e0 rest hfalse hfull.1 hcc).1,
          length_mapSet, length_mapDelete]
        have hk0 : k0 ∈ c.cache.map Prod.fst := by rw [hcc]; simp
        have hkey : key ∉ (mapDelete c.cache k0).map Prod.fst := by
          rw [keys_mapDelete]
          intro hm
          exact hnot (List.mem_of_mem_erase hm)
        rw [if_neg hkey, if_pos hk0]
        have heq : c.cache.length = ((k0, e0) :: rest).length := by rw [hcc]
        omega
    · rw [if_neg hfull]
      rcases hcc : c.cache with _ | ⟨⟨k0, e0⟩, rest⟩
      · simp [(set_cache_of_empty c key v ttl now hcc).1]
      · have hlen1 : 1 ≤ c.cache.length := by rw [hcc]; simp
        have hsmall : c.cache.length < c.maxSize := by
          rcases Decidable.not_and_iff_or_not.mp hfull with h1 | h2
          · omega
          · omega
        rw [(set_cache_of_new_small c key v ttl now hfalse hsmall).1,
          length_mapSet, if_neg hnot, hcc]

/-- `get` on a present, unexpired key: the hit branch in full — value
returned, hit counters bumped, entry moved to the most-recently-used end. -/
theorem get_hit {T : Type} (c : LRUCache T) (key : String) (now : Nat)
    (e : CacheEntry T) (h : mapGet c.cache key = some e)
    (hfresh : now - e.timestamp ≤ e.ttl) :
    (c.get key now).1 = some e.value
      ∧ (c.get key now).2.cache = mapSet (mapDelete c.cache key) key
          { e with hits := e.hits + 1 }
      ∧ (c.get key now).2.stats.hits = c.stats.hits + 1
      ∧ (c.get key now).2.stats.misses = c.stats.misses
      ∧ (c.get key now).2.maxSize = c.maxSize
      ∧ (c.get key now).2.defaultTTL = c.defaultTTL := by
  rw [LRUCache.get, h]
  dsimp only
  have hlt : ¬ now - e.timestamp > e.ttl := by omega
  rw [if_neg hlt]
  exact ⟨rfl, rfl, rfl, rfl, rfl, rfl⟩

/-- `get` on a present but expired key: deleted, counted as miss + eviction. -/
theorem get_expired {T : Type} (c : LRUCache T) (key : String) (now : Nat)
    (e : CacheEntry T) (h : mapGet c.cache key = some e)
    (hexp : now - e.timestamp > e.ttl) :
    (c.get key now).1 = none
      ∧ (c.get key now).2.cache = mapDelete c.cache key := by
  rw [LRUCache.get, h]
  dsimp only
  rw [if_pos hexp]
  exact ⟨rfl, rfl⟩

/-- `get` on an absent key: a plain miss, map untouched. -/
theorem get_missing {T : Type} (c : LRUCache T) (key : String) (now : Nat)
    (h : mapGet c.cache key = none) :
    (c.get key now).1 = none ∧ (c.get key now).2.cache = c.cache
      ∧ (c.get key now).2.maxSize = c.maxSize
      ∧ (c.get key now).2.defaultTTL = c.defaultTTL := by
  rw [LRUCache.get, h]
  exact ⟨rfl, rfl, rfl, rfl⟩

/-- Every key present after a `set` was present before or is the key set. -/
theorem keys_set_subset {T : Type} (c : LRUCache T) (key : String) (v : T)
    (ttl : Option Nat) (now : Nat) (k' : String)
    (h : k' ∈ keysOf (c.set key v ttl now)) : k' ∈ keysOf c ∨ k' = key := by
  have hsub : ∀ (m : List (String × CacheEntry T)) (e : CacheEntry T),
      k' ∈ (mapSet m key e).map Prod.fst → k' ∈ m.map Prod.fst ∨ k' = key := by
    intro m e hm
    rw [keys_mapSet] at hm
    by_cases hk : key ∈ m.map Prod.fst
    · rw [if_pos hk] at hm
      exact Or.inl hm
    · rw [if_neg hk] at hm
      rcases List.mem_append.mp hm with h1 | h1
      · exact Or.inl h1
      · exact Or.inr (List.mem_singleton.mp h1)
  rw [keysOf, LRUCache.set] at h
  dsimp only at h
  revert h
  split
  · split
    · intro h
      exact hsub _ _ h
    · intro h
      rcases hsub _ _ h with h1 | h1
      · rw [keys_mapDelete] at h1
        exact Or.inl (List.mem_of_mem_erase h1)
      · exact Or.inr h1
  · intro h
    exact hsub _ _ h

/-- `set` of a fresh key on a full, nonempty map drops exactly the head of the
order and appends the new key at the most-recently-used end. -/
theorem keys_set_new_full {T : Type} (c : LRUCache T) (key : String) (v : T)
    (ttl : Option Nat) (now : Nat) (h : mapHasKey c.cache key = false)
    (hfull : c.maxSize ≤ c.cache.length) (hne : 1 ≤ c.cache.length) :
    keysOf (c.set key v ttl now) = (keysOf c).tail ++ [key] := by
  rcases hcc : c.cache with _ | ⟨⟨k0, e0⟩, rest⟩
  · rw [hcc] at hne
    simp at hne
  · have hkeys := (set_cache_of_new_full c key v ttl now k0 e0 rest h hfull hcc).1
    rw [keysOf, hkeys, keys_mapSet, keys_mapDelete, hcc]
    have hnot : key ∉ c.cache.map Prod.fst := (mapHasKey_eq_false_iff _ _).mp h
    rw [hcc] at hnot
    simp only [List.map_cons, List.erase_cons_head]
    rw [if_neg (by intro hmem; exact hnot (by simp [hmem]))]
    simp [keysOf, hcc]


/-- `jsOr` with a positive default is positive. -/
theorem jsOr_pos (v : Option Nat) (d : Nat) (hd : 1 ≤ d) : 1 ≤ jsOr v d := by
  match v with
  | none => exact hd
  | some 0 => exact hd
  | some (n + 1) => exact Nat.succ_le_succ (Nat.zero_le n)

/-- The size invariant: if the capacity is at least 1, `set` keeps the map
within capacity, and a full map stays exactly full. -/
theorem set_length_invariant {T : Type} (c : LRUCache T) (key : String) (v : T)
    (ttl : Option Nat) (now : Nat) (hmax : 1 ≤ c.maxSize)
    (hlen : c.cache.length ≤ c.maxSize) :
    (c.set key v ttl now).cache.length ≤ c.maxSize
      ∧ (c.cache.length = c.maxSize → (c.set key v ttl now).cache.length = c.maxSize) := by
  rw [set_cache_length]
  by_cases h : mapHasKey c.cache key = true
  · rw [if_pos h]
    omega
  · rw [if_neg h]
    by_cases hfull : c.maxSize ≤ c.cache.length ∧ 1 ≤ c.cache.length
    · rw [if_pos hfull]
      omega
    · rw [if_neg hfull]
      rcases Decidable.not_and_iff_or_not.mp hfull with h1 | h2
      · omega
      · omega

/-- `setFold` preserves `maxSize` and keeps the map within a positive
capacity. -/
theorem setFold_length_le {T : Type} (ops : List (String × T × Option Nat × Nat)) :
    ∀ c : LRUCache T, 1 ≤ c.maxSize → c.cache.length ≤ c.maxSize →
      (setFold T c ops).maxSize = c.maxSize
        ∧ (setFold T c ops).cache.length ≤ c.maxSize := by
  induction ops with
  | nil => exact fun c _ h => ⟨rfl, h⟩
  | cons op rest ih =>
    intro c hmax hlen
    obtain ⟨k, v, ttl, now⟩ := op
    have hstep := set_length_invariant c k v ttl now hmax hlen
    have hm := set_maxSize c k v ttl now
    have := ih (c.set k v ttl now) (by omega) (by omega)
    rw [setFold]
    exact ⟨by omega, by omega⟩

/-- `set` never changes the hit counter. -/
theorem set_stats_hits {T : Type} (c : LRUCache T) (key : String) (v : T)
    (ttl : Option Nat) (now : Nat) : (c.set key v ttl now).stats.hits = c.stats.hits := by
  rw [LRUCache.set]
  split
  · split <;> rfl
  · rfl

/-- Folding `set` over pairwise-distinct fresh keys grows the map one entry
per call until the capacity is reached, then holds it exactly there. -/
theorem setFold_distinct_length {T : Type} (kvs : List (String × T)) (now : Nat) :
    ∀ c : LRUCache T, 1 ≤ c.maxSize → c.cache.length ≤ c.maxSize →
      (kvs.map Prod.fst).Nodup →
      (∀ kv ∈ kvs, mapHasKey c.cache kv.1 = false) →
      (setFold T c (kvs.map fun kv => (kv.1, kv.2, none, now))).cache.length
        = min (c.cache.length + kvs.length) c.maxSize := by
  induction kvs with
  | nil =>
    intro c hmax hlen _ _
    simp only [List.map_nil, setFold, List.length_nil]
    omega
  | cons kv rest ih =>
    intro c hmax hlen hnd hfresh
    obtain ⟨k, v⟩ := kv
    simp only [List.map_cons, setFold]
    have hk : mapHasKey c.cache k = false := hfresh (k, v) (by simp)
    have hlen' := set_cache_length c k v none now
    rw [if_neg (by simp [hk])] at hlen'
    have hmax' : (c.set k v none now).maxSize = c.maxSize := set_maxSize c k v none now
    have hfresh' : ∀ kv' ∈ rest, mapHasKey (c.set k v none now).cache kv'.1 = false := by
      intro kv' hmem
      rw [mapHasKey_eq_false_iff]
      intro hin
      rcases keys_set_subset c k v none now kv'.1 hin with h1 | h1
      · have := hfresh kv' (by simp [hmem])
        rw [mapHasKey_eq_false_iff] at this
        exact this h1
      · simp only [List.map_cons, List.nodup_cons] at hnd
        exact hnd.1 (h1 ▸ List.mem_map_of_mem Prod.fst hmem)
    have hnd' : (rest.map Prod.fst).Nodup := by
      simp only [List.map_cons, List.nodup_cons] at hnd
      exact hnd.2
    by_cases hfull : c.maxSize ≤ c.cache.length ∧ 1 ≤ c.cache.length
    · rw [if_pos hfull] at hlen'
      have := ih (c.set k v none now) (by omega) (by omega) hnd' hfresh'
      rw [this]
      simp only [List.length_cons]
      omega
    · rw [if_neg hfull] at hlen'
      have hlt : c.cache.length < c.maxSize := by
        rcases Decidable.not_and_iff_or_not.mp hfull with h1 | h2
        · omega
        · omega
      have := ih (c.set k v none now) (by omega) (by omega) hnd' hfresh'
      rw [this]
      simp only [List.length_cons]
      omega

/-! ## Claim theorems: the cache -/

/-- C2 (amended): the value stored by `set(key, v, T)` lives under the
effective TTL `T || defaultTTL` — a requested TTL of `0` falls back to the
default via JS `||`, so a `get` immediately after `set(…, 0)` hits — and
`get` returns the value exactly while `now - t0 ≤ effective TTL` (the code's
expiry test is the strict `now - timestamp > ttl`), returning absent only
strictly beyond it. -/
theorem get_ttl_effective (T : Type) (c : LRUCache T) (key : String) (v : T)
    (ttlReq : Option Nat) (t0 now : Nat) :
    ((now - t0 ≤ jsOr ttlReq c.defaultTTL) →
        ((c.set key v ttlReq t0).get key now).1 = some v)
      ∧ ((jsOr ttlReq c.defaultTTL < now - t0) →
        ((c.set key v ttlReq t0).get key now).1 = none) := by
  have hget := mapGet_set_self c key v ttlReq t0
  constructor
  · intro h
    exact (get_hit (c.set key v ttlReq t0) key now _ hget h).1
  · intro h
    exact (get_expired (c.set key v ttlReq t0) key now _ hget h).1

/-- Witness for C2 (amended), on a cache with default TTL 5: a `get` 3 ms
after a default-TTL `set` hits, one 9 ms after misses. -/
theorem get_ttl_effective_witness :
    (((mkLRUCache Nat ⟨some 10, some 5, none⟩).set "k" 7 none 0).get "k" 3).1 = some 7
      ∧ (((mkLRUCache Nat ⟨some 10, some 5, none⟩).set "k" 7 none 0).get "k" 9).1 = none := by
  constructor
  · exact (get_ttl_effective Nat (mkLRUCache Nat ⟨some 10, some 5, none⟩)
      "k" 7 none 0 3).1 (by decide)
  · exact (get_ttl_effective Nat (mkLRUCache Nat ⟨some 10, some 5, none⟩)
      "k" 7 none 0 9).2 (by decide)

/-- C2 counterexample: with default TTL 5 and `set("k", 7, ttl := 0)` at
time 0, the elapsed time 0 is `≥` the requested TTL 0, yet `get` at time 0
returns the value (the `ttl || defaultTTL` fallback stored TTL 5); and with
`set("j", 8, ttl := 3)`, at elapsed time exactly 3 (`≥ T`) `get` still
returns the value, because the expiry test is strict. The claim predicts
absent in both cases. -/
theorem get_ttl_cex :
    ((0 : Nat) ≥ 0 ∧
      (((mkLRUCache Nat ⟨some 10, some 5, none⟩).set "k" 7 (some 0) 0).get "k" 0).1 = some 7)
    ∧ ((3 : Nat) ≥ 3 ∧
      (((mkLRUCache Nat ⟨some 10, some 5, none⟩).set "j" 8 (some 3) 0).get "j" 3).1 = some 8) := by
  exact ⟨⟨le_refl 0, by decide⟩, ⟨le_refl 3, by decide⟩⟩

/-- C3: with a positive capacity, (1) a run of `set` calls on pairwise
distinct fresh keys leaves exactly `min (number set) maxSize` entries — so
once the calls exceed `maxSize`, the size equals `maxSize` after each call
(every prefix of the run is itself such a run); (2) a full cache stays
exactly full across any `set`; (3) a capacity-exceeding `set` of a new key
evicts precisely the head of the order (the least-recently-touched entry)
and appends the new key at the most-recently-used end; (4) a `get` hit
moves its key to the most-recently-used end; and (5) concretely with
`maxSize = 2`, `set a; set b; get a; set c` evicts `b`, leaving `a, c`. -/
theorem lru_eviction_order :
    (∀ (T : Type) (opts : CacheOptions) (kvs : List (String × T)) (now : Nat),
        (kvs.map Prod.fst).Nodup →
        (setFold T (mkLRUCache T opts)
            (kvs.map fun kv => (kv.1, kv.2, none, now))).cache.length
          = min kvs.length (jsOr opts.maxSize 500))
    ∧ (∀ (T : Type) (c : LRUCache T) (key : String) (v : T) (ttl : Option Nat) (now : Nat),
        1 ≤ c.maxSize → c.cache.length = c.maxSize →
        (c.set key v ttl now).cache.length = c.maxSize)
    ∧ (∀ (T : Type) (c : LRUCache T) (key : String) (v : T) (ttl : Option Nat) (now : Nat),
        mapHasKey c.cache key = false → c.maxSize ≤ c.cache.length → 1 ≤ c.cache.length →
        keysOf (c.set key v ttl now) = (keysOf c).tail ++ [key])
    ∧ (∀ (T : Type) (c : LRUCache T) (key : String) (now : Nat) (e : CacheEntry T),
        mapGet c.cache key = some e → now - e.timestamp ≤ e.ttl → (keysOf c).Nodup →
        keysOf ((c.get key now).2) = (keysOf c).erase key ++ [key])
    ∧ keysOf (((((mkLRUCache Nat ⟨some 2, none, none⟩).set "a" 1 none 0).set "b" 2
        none 0).get "a" 0).2.set "c" 3 none 0) = ["a", "c"] := by
  refine ⟨?_, ?_, ?_, ?_, by decide⟩
  · intro T opts kvs now hnd
    have h := setFold_distinct_length kvs now (mkLRUCache T opts)
      (jsOr_pos _ _ (by omega)) (Nat.zero_le _) hnd
      (by intro kv _; rfl)
    simpa [mkLRUCache] using h
  · intro T c key v ttl now hmax hlen
    exact (set_length_invariant c key v ttl now hmax (le_of_eq hlen)).2 hlen
  · intro T c key v ttl now hnew hfull hne
    exact keys_set_new_full c key v ttl now hnew hfull hne
  · intro T c key now e hget hfresh hnd
    have hh := (get_hit c key now e hget hfresh).2.1
    rw [keysOf, hh, keys_mapSet, keys_mapDelete]
    have : key ∉ ((c.cache.map Prod.fst).erase key) := by
      intro hmem
      have := mapGet_mapDelete_of_nodup c.cache key hnd
      rw [mapGet_eq_none_iff, keys_mapDelete] at this
      exact this hmem
    rw [if_neg this]
    rfl

/-- Witness for C3: with capacity 2, three distinct fresh inserts leave 2
entries; and on the full cache `[a, b]` a fresh `set c` evicts the head `a`,
leaving `[b, c]`. -/
theorem lru_eviction_order_witness :
    (setFold Nat (mkLRUCache Nat ⟨some 2, none, none⟩)
        ([("a", 1), ("b", 2), ("c", 3)].map fun kv => (kv.1, kv.2, none, 0))).cache.length = 2
      ∧ keysOf ((((mkLRUCache Nat ⟨some 2, none, none⟩).set "a" 1 none 0).set "b" 2
          none 0).set "c" 3 none 0) = ["b", "c"] := by
  constructor
  · exact (lru_eviction_order.1 Nat ⟨some 2, none, none⟩
      [("a", 1), ("b", 2), ("c", 3)] 0 (by decide)).trans (by decide)
  · exact (lru_eviction_order.2.2.1 Nat
      (((mkLRUCache Nat ⟨some 2, none, none⟩).set "a" 1 none 0).set "b" 2 none 0)
      "c" 3 none 0 (by decide) (by decide) (by decide)).trans (by decide)

/-- C4 (amended): `set` on a key already present updates its value and TTL
(with a fresh timestamp and hit count) and evicts nothing, but — because JS
`Map.set` keeps the insertion position of an existing key, and the code
does not delete before re-setting — the key KEEPS its current position in
the order instead of moving to the most-recently-used end. -/
theorem set_existing_in_place (T : Type) (c : LRUCache T) (key : String)
    (e0 : CacheEntry T) (v : T) (ttl : Option Nat) (now : Nat)
    (h : mapGet c.cache key = some e0) :
    keysOf (c.set key v ttl now) = keysOf c
      ∧ mapGet (c.set key v ttl now).cache key = some ⟨v, now, 0, jsOr ttl c.defaultTTL⟩
      ∧ (c.set key v ttl now).stats.evictions = c.stats.evictions := by
  have hhas : mapHasKey c.cache key = true := by rw [mapHasKey, h]; rfl
  obtain ⟨hc, he⟩ := set_cache_of_has c key v ttl now hhas
  refine ⟨?_, mapGet_set_self c key v ttl now, he⟩
  rw [keysOf, hc, keys_mapSet, if_pos ((mapHasKey_eq_true_iff _ _).mp hhas)]
  rfl

/-- Witness for C4 (amended): overwriting `"a"` in the two-entry cache
`[a, b]` leaves the order `[a, b]`, stores the new value with the default
TTL, and counts no eviction. -/
theorem set_existing_in_place_witness :
    keysOf ((((mkLRUCache Nat ⟨some 2, none, none⟩).set "a" 1 none 0).set "b" 2
        none 0).set "a" 9 none 0)
      = keysOf (((mkLRUCache Nat ⟨some 2, none, none⟩).set "a" 1 none 0).set "b" 2 none 0)
    ∧ mapGet ((((mkLRUCache Nat ⟨some 2, none, none⟩).set "a" 1 none 0).set "b" 2
        none 0).set "a" 9 none 0).cache "a" = some ⟨9, 0, 0, 300000⟩
    ∧ ((((mkLRUCache Nat ⟨some 2, none, none⟩).set "a" 1 none 0).set "b" 2
        none 0).set "a" 9 none 0).stats.evictions
      = (((mkLRUCache Nat ⟨some 2, none, none⟩).set "a" 1 none 0).set "b" 2
        none 0).stats.evictions :=
  set_existing_in_place Nat
    (((mkLRUCache Nat ⟨some 2, none, none⟩).set "a" 1 none 0).set "b" 2 none 0)
    "a" ⟨1, 0, 0, 300000⟩ 9 none 0 (by decide)

/-- C4 counterexample: after `set a; set b; set a (overwrite)` the order is
still `[a, b]` — the overwritten key `a` is NOT at the most-recently-used
(last) end, contradicting the claimed refresh of its position. -/
theorem set_existing_cex :
    keysOf ((((mkLRUCache Nat ⟨some 2, none, none⟩).set "a" 1 none 0).set "b" 2
        none 0).set "a" 9 none 0) = ["a", "b"]
      ∧ (keysOf ((((mkLRUCache Nat ⟨some 2, none, none⟩).set "a" 1 none 0).set "b" 2
          none 0).set "a" 9 none 0)).getLast? ≠ some "a" := by
  exact ⟨by decide, by decide⟩

/-- C5 (amended): a cache never holds more entries than its EFFECTIVE
capacity after any run of `set` calls — but a `maxSize` option of `0` is
falsy for JS `||`, so the constructor replaces it by the default 500; the
configured value 0 is not enforced. For any option value `n ≥ 1` (in
particular 1) the bound is the configured `n`. -/
theorem capacity_bound :
    (∀ (T : Type) (opts : CacheOptions) (ops : List (String × T × Option Nat × Nat)),
        (setFold T (mkLRUCache T opts) ops).cache.length ≤ jsOr opts.maxSize 500)
      ∧ (mkLRUCache Nat ⟨some 0, none, none⟩).maxSize = 500 := by
  constructor
  · intro T opts ops
    exact (setFold_length_le ops (mkLRUCache T opts)
      (jsOr_pos _ _ (by omega)) (Nat.zero_le _)).2
  · rfl

/-- C5 counterexample: a cache constructed with `maxSize: 0` accepts an
entry — its size after one `set` is 1 > 0, exceeding the configured 0. -/
theorem maxSize_zero_cex :
    0 < ((mkLRUCache Nat ⟨some 0, none, none⟩).set "k" 1 none 0).cache.length := by
  decide

/-- C10: `getOrSet` with a producer resolving to `undefined` stores the
result, but a stored `undefined` can never satisfy `cached !== undefined`:
on a later call within the TTL, the inner `get` records a hit (hit counter
+1) and returns the stored `undefined`, yet `getOrSet` treats it as a miss
and invokes the producer again, re-storing its result. -/
theorem getOrSet_undefined_reinvokes :
    (∀ (V : Type) (c : LRUCache (Option V)) (key : String) (fb : Option V)
        (ttl : Option Nat) (now : Nat),
        mapGet c.cache key = none →
        ((c.getOrSet key fb ttl now).2.2 = true
          ∧ mapGet ((c.getOrSet key fb ttl now).2.1).cache key
              = some ⟨fb, now, 0, jsOr ttl c.defaultTTL⟩))
    ∧ (∀ (V : Type) (c : LRUCache (Option V)) (key : String) (e : CacheEntry (Option V))
        (fb : Option V) (ttl : Option Nat) (now : Nat),
        mapGet c.cache key = some e → e.value = none → now - e.timestamp ≤ e.ttl →
        ((c.getOrSet key fb ttl now).2.2 = true
          ∧ ((c.getOrSet key fb ttl now).2.1).stats.hits = c.stats.hits + 1
          ∧ mapGet ((c.getOrSet key fb ttl now).2.1).cache key
              = some ⟨fb, now, 0, jsOr ttl c.defaultTTL⟩)) := by
  constructor
  · intro V c key fb ttl now h
    obtain ⟨h1, _, _, h4⟩ := get_missing c key now h
    rw [LRUCache.getOrSet]
    rw [h1]
    exact ⟨rfl, by rw [mapGet_set_self, h4]⟩
  · intro V c key e fb ttl now hget hval hfresh
    obtain ⟨h1, _, h3, _, _, h6⟩ := get_hit c key now e hget hfresh
    rw [hval] at h1
    rw [LRUCache.getOrSet]
    rw [h1]
    refine ⟨rfl, ?_, ?_⟩
    · rw [set_stats_hits, h3]
    · rw [mapGet_set_self, h6]

/-- Witness for C10: on the concrete cache holding a stored `undefined`
under `"k"`, `getOrSet` at time 1 re-invokes the producer (here resolving
to `some 3`), records a hit, and re-stores the produced value. -/
theorem getOrSet_undefined_reinvokes_witness :
    (sampleUndefCache.getOrSet "k" (some 3) none 1).2.2 = true
      ∧ ((sampleUndefCache.getOrSet "k" (some 3) none 1).2.1).stats.hits
          = sampleUndefCache.stats.hits + 1
      ∧ mapGet ((sampleUndefCache.getOrSet "k" (some 3) none 1).2.1).cache "k"
          = some ⟨some 3, 1, 0, jsOr none sampleUndefCache.defaultTTL⟩ :=
  getOrSet_undefined_reinvokes.2 Nat sampleUndefCache "k" ⟨none, 0, 0, 9⟩
    (some 3) none 1 (by decide) rfl (by decide)

/-! ## Claim theorems: pagination -/

/-- C8: `paginate` clamps `page` to at least 1 and `limit` into `[1, 100]`,
reports `total` as the exact match count, computes
`totalPages = ceil(total / limit)` (0 total giving 0 totalPages; the two
inequality conjuncts characterize the ceiling exactly),
`hasNextPage = page < totalPages`, `hasPrevPage = page > 1`, and returns an
empty `data` sequence — not an error — whenever the skip offset
`(page - 1) * limit` reaches `total`. -/
theorem paginate_envelope (T : Type) (docs : List T) (page limit : Int) :
    (paginate T docs page limit).pagination.page = (max 1 page).toNat
      ∧ (paginate T docs page limit).pagination.limit = (min (max 1 limit) 100).toNat
      ∧ 1 ≤ (paginate T docs page limit).pagination.page
      ∧ 1 ≤ (paginate T docs page limit).pagination.limit
      ∧ (paginate T docs page limit).pagination.limit ≤ 100
      ∧ (paginate T docs page limit).pagination.total = docs.length
      ∧ (docs.length = 0 → (paginate T docs page limit).pagination.totalPages = 0)
      ∧ docs.length ≤ (paginate T docs page limit).pagination.totalPages
          * (paginate T docs page limit).pagination.limit
      ∧ (1 ≤ (paginate T docs page limit).pagination.totalPages →
          ((paginate T docs page limit).pagination.totalPages - 1)
              * (paginate T docs page limit).pagination.limit < docs.length)
      ∧ (paginate T docs page limit).pagination.hasNextPage
          = decide ((paginate T docs page limit).pagination.page
              < (paginate T docs page limit).pagination.totalPages)
      ∧ (paginate T docs page limit).pagination.hasPrevPage
          = decide (1 < (paginate T docs page limit).pagination.page)
      ∧ (docs.length ≤ ((paginate T docs page limit).pagination.page - 1)
            * (paginate T docs page limit).pagination.limit →
          (paginate T docs page limit).data = []) := by
  have hvl1 : 1 ≤ (min (max 1 limit) 100).toNat := by
    have h1 : (1 : Int) ≤ min (max 1 limit) 100 :=
      le_min (le_max_left 1 limit) (by norm_num)
    omega
  have hvl100 : (min (max 1 limit) 100).toNat ≤ 100 := by
    have h1 : min (max 1 limit) 100 ≤ (100 : Int) := min_le_right _ _
    omega
  have hvp1 : 1 ≤ (max 1 page).toNat := by
    have h1 : (1 : Int) ≤ max 1 page := le_max_left 1 page
    omega
  dsimp only [paginate]
  refine ⟨rfl, rfl, hvp1, hvl1, hvl100, rfl, ?_, ?_, ?_, rfl, rfl, ?_⟩
  · intro h0
    rw [h0]
    exact Nat.div_eq_of_lt (by omega)
  · set vl := (min (max 1 limit) 100).toNat with hvl
    set tp := (docs.length + vl - 1) / vl with htp
    have h1 : tp ≤ tp := le_refl tp
    rw [htp, Nat.div_le_iff_le_mul_add_pred (by omega)] at h1
    have hcomm : vl * ((docs.length + vl - 1) / vl) = tp * vl := by
      rw [htp, Nat.mul_comm]
    rw [hcomm] at h1
    omega
  · intro h1
    set vl := (min (max 1 limit) 100).toNat with hvl
    set tp := (docs.length + vl - 1) / vl with htp
    have h2 : tp ≤ (docs.length + vl - 1) / vl := le_of_eq htp
    rw [Nat.le_div_iff_mul_le (by omega)] at h2
    have h3 : vl ≤ tp * vl := Nat.le_mul_of_pos_left vl (by omega)
    have h4 : (tp - 1) * vl = tp * vl - 1 * vl := by rw [Nat.sub_mul]
    omega
  · intro h
    have hdrop : docs.drop (((max 1 page).toNat - 1) * (min (max 1 limit) 100).toNat)
        = [] := by
      apply List.drop_eq_nil_of_le
      exact h
    rw [hdrop, List.take_nil]

/-- Witness for C8: 5 documents, page 3, limit 10 — the skip offset 20 is
beyond the 5 matching documents, and the data sequence is empty; with no
matching documents, `totalPages` is 0. -/
theorem paginate_envelope_witness :
    (paginate Nat (List.range 5) 3 10).data = []
      ∧ (paginate Nat ([] : List Nat) 1 20).pagination.totalPages = 0 := by
  constructor
  · exact (paginate_envelope Nat (List.range 5) 3 10).2.2.2.2.2.2.2.2.2.2.2 (by decide)
  · exact (paginate_envelope Nat ([] : List Nat) 1 20).2.2.2.2.2.2.1 (by decide)

/-! ## Claim theorems: cache keys -/

/-- Splitting at the first `:` is unambiguous when the leading parts are
`:`-free. -/
theorem colon_split_cancel :
    ∀ (a b ta tb : List Char), ':' ∉ a → ':' ∉ b →
      a ++ ':' :: ta = b ++ ':' :: tb → a = b ∧ ta = tb := by
  intro a
  induction a with
  | nil =>
    intro b ta tb _ hb h
    cases b with
    | nil =>
      simp only [List.nil_append] at h
      exact ⟨rfl, by injection h⟩
    | cons d bs =>
      simp only [List.nil_append, List.cons_append] at h
      injection h with h1 _
      exact absurd (h1 ▸ List.mem_cons_self d bs) hb
  | cons c as ih =>
    intro b ta tb ha hb h
    cases b with
    | nil =>
      simp only [List.cons_append, List.nil_append] at h
      injection h with h1 _
      exact absurd (h1 ▸ List.mem_cons_self c as) ha
    | cons d bs =>
      simp only [List.cons_append] at h
      injection h with h1 h2
      have ha' : ':' ∉ as := fun hm => ha (List.mem_cons_of_mem c hm)
      have hb' : ':' ∉ bs := fun hm => hb (List.mem_cons_of_mem d hm)
      obtain ⟨hab, htab⟩ := ih bs ta tb ha' hb' h2
      exact ⟨by rw [h1, hab], htab⟩

/-- The character data of the suffix-free key form. -/
theorem gck_none_data (u r : String) :
    (generateCacheKey u r none).data = "user:".data ++ (u.data ++ ':' :: r.data) := by
  show ("user:" ++ u ++ ":" ++ r).data = _
  rw [String.data_append, String.data_append, String.data_append]
  rw [List.append_assoc, List.append_assoc]
  rfl

/-- The character data of the suffixed key form (truthy suffix). -/
theorem gck_some_data (u r t : String) (ht : t ≠ "") :
    (generateCacheKey u r (some t)).data
      = "user:".data ++ (u.data ++ ':' :: (r.data ++ ':' :: t.data)) := by
  have hemp : t.isEmpty = false := by
    cases he : t.isEmpty
    · rfl
    · exact absurd ((String.isEmpty_iff t).mp he) ht
  have htruthy : jsTruthy (some t) = true := by simp [jsTruthy, hemp]
  rw [generateCacheKey, if_pos htruthy]
  show ("user:" ++ u ++ ":" ++ r ++ ":" ++ t).data = _
  rw [String.data_append, String.data_append, String.data_append,
    String.data_append, String.data_append]
  rw [List.append_assoc, List.append_assoc, List.append_assoc, List.append_assoc]
  rfl

/-- `:`-count of the two key forms, for `:`-free components. -/
theorem gck_colon_count (u r t : String) (hu : ':' ∉ u.data) (hr : ':' ∉ r.data)
    (ht : ':' ∉ t.data) (hne : t ≠ "") :
    ((generateCacheKey u r none).data.count ':' = 2)
      ∧ ((generateCacheKey u r (some t)).data.count ':' = 3) := by
  have hu0 : u.data.count ':' = 0 := List.count_eq_zero.mpr hu
  have hr0 : r.data.count ':' = 0 := List.count_eq_zero.mpr hr
  have ht0 : t.data.count ':' = 0 := List.count_eq_zero.mpr ht
  have huser : List.count ':' "user:".data = 1 := by decide
  constructor
  · rw [gck_none_data, List.count_append, huser, List.count_append, hu0,
      List.count_cons, hr0]
    decide
  · rw [gck_some_data u r t hne, List.count_append, huser, List.count_append,
      hu0, List.count_cons, List.count_append, hr0, List.count_cons, ht0]
    decide

/-- C6 (amended): `generateCacheKey` is deterministic (a pure function of
its arguments); a suffix that is absent, `null` or the empty string yields
the two-part key `user:<userId>:<resource>` with no suffix placeholder and
in particular no literal `"null"`; and on components free of the `:`
separator, with the suffix absent or a nonempty `:`-free string, distinct
triples produce distinct keys — so `(u, "categories")` and
`(u, "categories", "expense")` remain distinguishable. (Injectivity fails
for components containing `:` and for an empty-string suffix versus an
absent one; see the counterexample.) -/
theorem generateCacheKey_injective_colon_free :
    (∀ (u r : String) (s : Option String), jsTruthy s = false →
        generateCacheKey u r s = "user:" ++ u ++ ":" ++ r)
    ∧ (∀ (u1 r1 u2 r2 : String) (s1 s2 : Option String),
        ':' ∉ u1.data → ':' ∉ r1.data → ':' ∉ u2.data → ':' ∉ r2.data →
        SuffixOk s1 → SuffixOk s2 →
        generateCacheKey u1 r1 s1 = generateCacheKey u2 r2 s2 →
        u1 = u2 ∧ r1 = r2 ∧ s1 = s2) := by
  constructor
  · intro u r s hs
    rw [generateCacheKey, if_neg (by simp [hs])]
  · intro u1 r1 u2 r2 s1 s2 hu1 hr1 hu2 hr2 hs1 hs2 heq
    have hdata := congrArg String.data heq
    rcases hs1 with rfl | ⟨t1, rfl, ht1ne, ht1⟩ <;>
      rcases hs2 with rfl | ⟨t2, rfl, ht2ne, ht2⟩
    · rw [gck_none_data, gck_none_data] at hdata
      have h2 := List.append_cancel_left hdata
      obtain ⟨hu, hr⟩ := colon_split_cancel u1.data u2.data r1.data r2.data hu1 hu2 h2
      exact ⟨String.ext hu, String.ext hr, rfl⟩
    · exfalso
      have hc1 := (gck_colon_count u1 r1 t2 hu1 hr1 ht2 ht2ne).1
      have hc2 := (gck_colon_count u2 r2 t2 hu2 hr2 ht2 ht2ne).2
      rw [hdata, hc2] at hc1
      exact absurd hc1 (by omega)
    · exfalso
      have hc1 := (gck_colon_count u1 r1 t1 hu1 hr1 ht1 ht1ne).2
      have hc2 := (gck_colon_count u2 r2 t1 hu2 hr2 ht1 ht1ne).1
      rw [hdata, hc2] at hc1
      exact absurd hc1 (by omega)
    · rw [gck_some_data u1 r1 t1 ht1ne, gck_some_data u2 r2 t2 ht2ne] at hdata
      have h2 := List.append_cancel_left hdata
      obtain ⟨hu, hrest⟩ :=
        colon_split_cancel u1.data u2.data _ _ hu1 hu2 h2
      obtain ⟨hr, ht⟩ :=
        colon_split_cancel r1.data r2.data _ _ hr1 hr2 hrest
      exact ⟨String.ext hu, String.ext hr, by rw [String.ext ht]⟩

/-- Witness for C6 (amended): applying the injectivity direction at the
concrete key equality `user:u:categories:expense = user:u:categories:expense`
recovers the components. -/
theorem generateCacheKey_injective_witness :
    ("u" : String) = "u" ∧ ("categories" : String) = "categories"
      ∧ (some "expense" : Option String) = some "expense" :=
  generateCacheKey_injective_colon_free.2 "u" "categories" "u" "categories"
    (some "expense") (some "expense") (by decide) (by decide) (by decide) (by decide)
    (Or.inr ⟨"expense", rfl, by decide, by decide⟩)
    (Or.inr ⟨"expense", rfl, by decide, by decide⟩) rfl

/-- C6 counterexample: two distinct triples whose components contain the
`:` separator collide (`("a:b", "c")` and `("a", "b:c")` both give
`user:a:b:c`), and an empty-string suffix collides with an absent one —
the claim asserts distinct keys in both situations. -/
theorem generateCacheKey_collision_cex :
    generateCacheKey "a:b" "c" none = generateCacheKey "a" "b:c" none
      ∧ (("a:b", "c") : String × String) ≠ ("a", "b:c")
      ∧ generateCacheKey "u" "r" none = generateCacheKey "u" "r" (some "")
      ∧ (none : Option String) ≠ some "" := by
  exact ⟨by decide, by decide, by decide, by decide⟩

/-! ## Claim theorems: pattern deletion -/

theorem listLead_sound : ∀ (s l : List Char), listLead s l = true →
    l = s ++ l.drop s.length := by
  intro s
  induction s with
  | nil => intro l _; rfl
  | cons a as ih =>
    intro l h
    cases l with
    | nil => exact absurd h (by rw [listLead]; simp)
    | cons b bs =>
      rw [listLead, Bool.and_eq_true, decide_eq_true_eq] at h
      obtain ⟨rfl, h2⟩ := h
      have := ih bs h2
      simp only [List.cons_append, List.length_cons, List.drop_succ_cons]
      rw [← this]

theorem listLead_append (s t : List Char) : listLead s (s ++ t) = true := by
  induction s with
  | nil => rfl
  | cons a as ih => simp [listLead, ih]

theorem matchTail_iff : ∀ (ss : List (List Char)) (key : List Char),
    matchTail ss key = true ↔ SegsGapped ss key := by
  intro ss
  induction ss with
  | nil => intro key; exact ⟨fun _ => trivial, fun _ => rfl⟩
  | cons s rest ih =>
    intro key
    rw [matchTail, List.any_eq_true]
    constructor
    · rintro ⟨i, _, hbody⟩
      rw [Bool.and_eq_true, Bool.and_eq_true] at hbody
      obtain ⟨⟨hgap, hlead⟩, htail⟩ := hbody
      refine ⟨key.take i, (key.drop i).drop s.length, ?_, hgap, (ih _).mp htail⟩
      conv_lhs => rw [← List.take_append_drop i key]
      rw [List.append_assoc]
      congr 1
      exact listLead_sound s (key.drop i) hlead
    · rintro ⟨gap, rest2, hkey, hgap, hss⟩
      refine ⟨gap.length, ?_, ?_⟩
      · rw [List.mem_range]
        have := congrArg List.length hkey
        simp only [List.length_append] at this
        omega
      · have htake : key.take gap.length = gap := by
          rw [hkey, List.append_assoc, List.take_left]
        have hdrop : key.drop gap.length = s ++ rest2 := by
          rw [hkey, List.append_assoc, List.drop_left]
        rw [Bool.and_eq_true, Bool.and_eq_true, htake, hdrop, List.drop_left]
        exact ⟨⟨hgap, listLead_append s rest2⟩, (ih rest2).mpr hss⟩

theorem regexTest_iff : ∀ (ss : List (List Char)) (key : List Char),
    regexTest ss key = true ↔ regexTestSpec ss key := by
  intro ss key
  cases ss with
  | nil => exact ⟨fun _ => trivial, fun _ => rfl⟩
  | cons s rest =>
    rw [regexTest, List.any_eq_true]
    constructor
    · rintro ⟨j, _, hbody⟩
      rw [Bool.and_eq_true] at hbody
      obtain ⟨hlead, htail⟩ := hbody
      refine ⟨key.take j, (key.drop j).drop s.length, ?_, (matchTail_iff _ _).mp htail⟩
      conv_lhs => rw [← List.take_append_drop j key]
      rw [List.append_assoc]
      congr 1
      exact listLead_sound s (key.drop j) hlead
    · rintro ⟨pre, rest2, hkey, hss⟩
      refine ⟨pre.length, ?_, ?_⟩
      · rw [List.mem_range]
        have := congrArg List.length hkey
        simp only [List.length_append] at this
        omega
      · have hdrop : key.drop pre.length = s ++ rest2 := by
          rw [hkey, List.append_assoc, List.drop_left]
        rw [Bool.and_eq_true, hdrop, List.drop_left]
        exact ⟨listLead_append s rest2, (matchTail_iff _ _).mpr hss⟩


/-- The deletion loop deletes the matching bindings and counts them. -/
theorem deleteMatching_eq {T : Type} (test : String → Bool) :
    ∀ l : List (String × CacheEntry T),
      deleteMatching test l
        = ((l.filter fun e => test e.1).length, l.filter fun e => ! test e.1) := by
  intro l
  induction l with
  | nil => rfl
  | cons p rest ih =>
    obtain ⟨k, e⟩ := p
    rw [deleteMatching, ih]
    by_cases h : test k
    · simp [List.filter_cons, h]
    · simp [List.filter_cons, h]

theorem parenBalanced_of_no_paren : ∀ (l : List Char), '(' ∉ l → ')' ∉ l →
    parenBalanced l 0 = true := by
  intro l
  induction l with
  | nil => intro _ _; rfl
  | cons c rest ih =>
    intro h1 h2
    rw [parenBalanced]
    rw [if_neg (by intro hc; exact h1 (hc ▸ List.mem_cons_self c rest))]
    rw [if_neg (by intro hc; exact h2 (hc ▸ List.mem_cons_self c rest))]
    exact ih (fun hm => h1 (List.mem_cons_of_mem c hm))
      (fun hm => h2 (List.mem_cons_of_mem c hm))

/-- Characters of the translated pattern: the translation's own output
characters, or characters of the original pattern. -/
theorem mem_globToRegexChars (p : List Char) (c' : Char)
    (h : c' ∈ globToRegexChars p) :
    c' = '.' ∨ c' = '*' ∨ c' = '\\' ∨ c' ∈ p := by
  simp only [globToRegexChars] at h
  simp only [List.mem_flatten, List.mem_map] at h
  obtain ⟨l2, ⟨c2, hc2step1, rfl⟩, hc'l2⟩ := h
  obtain ⟨l1, ⟨c1, hc1p, rfl⟩, hc2l1⟩ := hc2step1
  by_cases h1 : c1 = '*'
  · rw [if_pos h1] at hc2l1
    simp only [List.mem_cons, List.not_mem_nil, or_false] at hc2l1
    by_cases h3 : c2 = ':'
    · exfalso
      rcases hc2l1 with h2 | h2 <;> rw [h2] at h3 <;> exact absurd h3 (by decide)
    · rw [if_neg h3] at hc'l2
      simp only [List.mem_cons, List.not_mem_nil, or_false] at hc'l2
      rcases hc2l1 with h2 | h2
      · exact Or.inl (hc'l2.trans h2)
      · exact Or.inr (Or.inl (hc'l2.trans h2))
  · rw [if_neg h1] at hc2l1
    simp only [List.mem_cons, List.not_mem_nil, or_false] at hc2l1
    by_cases h3 : c2 = ':'
    · rw [if_pos h3] at hc'l2
      simp only [List.mem_cons, List.not_mem_nil, or_false] at hc'l2
      rcases hc'l2 with h4 | h4
      · exact Or.inr (Or.inr (Or.inl h4))
      · exact Or.inr (Or.inr (Or.inr (by rw [h4, hc2l1]; exact hc1p)))
    · rw [if_neg h3] at hc'l2
      simp only [List.mem_cons, List.not_mem_nil, or_false] at hc'l2
      exact Or.inr (Or.inr (Or.inr (by rw [hc'l2, hc2l1]; exact hc1p)))

/-- A literal glob pattern translates to a syntactically valid regex (no
parentheses at all, so trivially balanced). -/
theorem regexSyntaxOk_of_globLiteral (p : List Char) (hp : GlobLiteral p) :
    regexSyntaxOk (globToRegexChars p) = true := by
  rw [regexSyntaxOk]
  apply parenBalanced_of_no_paren
  · intro hmem
    rcases mem_globToRegexChars p '(' hmem with h | h | h | h
    · simp at h
    · simp at h
    · simp at h
    · exact absurd (by decide : '(' ∈ regexMeta) (hp '(' h (by decide))
  · intro hmem
    rcases mem_globToRegexChars p ')' hmem with h | h | h | h
    · simp at h
    · simp at h
    · simp at h
    · exact absurd (by decide : ')' ∈ regexMeta) (hp ')' h (by decide))

/-- C1 (amended): for a pattern in the literal glob fragment (each character
either the `*` wildcard or a regex-literal character — `:` included),
`deletePattern` does not throw; it removes exactly those keys ACCEPTED by
the unanchored `regex.test` of the translated regex `s₀.*s₁.*…sₙ`, and
returns the number of keys removed. Full-string matching, as the original
claim states it, does not hold (see the counterexample): the search skips
an arbitrary prefix, so a key containing a match anywhere is removed. The
final conjunct characterizes the implemented matcher declaratively: a key
is accepted iff it decomposes as an arbitrary prefix, then the pattern's
literal segments in order separated by line-terminator-free gaps (the
flagless `.` of each `.*` does not match `\n`, `\r`, U+2028 or U+2029),
then an arbitrary suffix. -/
theorem deletePattern_matches_contained_glob (T : Type) (c : LRUCache T)
    (p : String) (hp : GlobLiteral p.data) :
    ∃ c' : LRUCache T,
      c.deletePattern p
          = Except.ok
              ((c.cache.filter fun e => regexTest (splitStar p.data) e.1.data).length, c')
        ∧ c'.cache = c.cache.filter (fun e => ! regexTest (splitStar p.data) e.1.data)
        ∧ (∀ key : List Char,
            regexTest (splitStar p.data) key = true
              ↔ regexTestSpec (splitStar p.data) key) := by
  rw [LRUCache.deletePattern, if_pos (regexSyntaxOk_of_globLiteral p.data hp)]
  dsimp only
  rw [deleteMatching_eq]
  exact ⟨_, rfl, rfl, fun key => regexTest_iff (splitStar p.data) key⟩

/-- Witness for C1 (amended): on the three-key cache, the pattern
`user:42:*` deletes the two user-42 keys and keeps user 7's. -/
theorem deletePattern_matches_contained_glob_witness :
    ∃ c' : LRUCache Nat,
      sampleC1Cache.deletePattern "user:42:*"
          = Except.ok
              ((sampleC1Cache.cache.filter fun e =>
                regexTest (splitStar "user:42:*".data) e.1.data).length, c')
        ∧ c'.cache = sampleC1Cache.cache.filter
            (fun e => ! regexTest (splitStar "user:42:*".data) e.1.data)
        ∧ (∀ key : List Char,
            regexTest (splitStar "user:42:*".data) key = true
              ↔ regexTestSpec (splitStar "user:42:*".data) key) :=
  deletePattern_matches_contained_glob Nat sampleC1Cache "user:42:*"
    (by unfold GlobLiteral; decide)

/-- C1 counterexample: the key `xuser:42:a` does not match the glob
`user:42:*` as a full string (the spec-side matcher rejects it), yet
`deletePattern` deletes it — the unanchored `regex.test` finds the match at
offset 1 — returning count 1 and leaving the cache empty. The claim's "it
removes no key whose full string does not match" is false. -/
theorem deletePattern_unanchored_cex :
    specGlobMatches "user:42:*".data "xuser:42:a".data = false
      ∧ ((((mkLRUCache Nat ⟨some 5, none, none⟩).set "xuser:42:a" 1 none
            0).deletePattern "user:42:*").toOption.map
          (fun r => (r.1, r.2.cache)))
        = some (1, ([] : List (String × CacheEntry Nat))) := by
  exact ⟨by decide, by decide⟩

/-- A flagless `.` does not cross line terminators: `deletePattern("a*b")`
on a cache holding only the key `"a\nb"` deletes nothing and returns
count 0 — `/a.*b/.test("a\nb")` is false in the program — while the same
key without the newline is deleted. -/
theorem deletePattern_line_terminator_gap :
    ((((mkLRUCache Nat ⟨some 5, none, none⟩).set "a\nb" 1 none
          0).deletePattern "a*b").toOption.map
        (fun r => (r.1, r.2.cache.map Prod.fst)))
      = some (0, ["a\nb"])
    ∧ ((((mkLRUCache Nat ⟨some 5, none, none⟩).set "axb" 1 none
          0).deletePattern "a*b").toOption.map
        (fun r => (r.1, r.2.cache.map Prod.fst)))
      = some (1, []) := by
  exact ⟨by decide, by decide⟩

/-- C9: `deletePattern` is NOT total on malformed patterns — the source
passes the translated pattern straight to `new RegExp`, which throws a
`SyntaxError` on invalid regex syntax such as the unbalanced parenthesis
`"("` (nothing escapes `(` in the translation), instead of treating the
input as a literal string. The claim describes the spec's intended
behavior; the code throws. -/
theorem deletePattern_malformed_throws :
    regexSyntaxOk (globToRegexChars "(".data) = false
      ∧ (((mkLRUCache Nat ⟨some 5, none, none⟩).set "user:1:c" 1 none
            0).deletePattern "(").toOption.isNone = true := by
  exact ⟨by decide, by decide⟩

/-! ## Claim theorems: cursor codec -/

theorem charOfNat?_toNat (c : Char) : charOfNat? c.toNat = some c := by
  have hv : c.toNat.isValidChar := c.valid
  rw [charOfNat?, dif_pos hv]
  congr 1

theorem toNat_ofNatAux (n : Nat) (h : n.isValidChar) : (Char.ofNatAux n h).toNat = n :=
  rfl

theorem toNat_charOfNat (n : Nat) (h : n.isValidChar) : (Char.ofNat n).toNat = n := by
  rw [Char.ofNat, dif_pos h]
  exact toNat_ofNatAux n h

theorem char_toNat_lt_size (c : Char) : c.toNat < 1114112 := by
  have h0 : c.toNat = c.val.toNat := rfl
  rcases c.valid with h | h
  · omega
  · omega

theorem digit_isValidChar (n : Nat) (h : n < 1000) : (48 + n).isValidChar := by
  left
  omega

theorem toNat_digitChar (d : Nat) (h : d < 10) : (digitChar d).toNat = 48 + d := by
  rw [digitChar, toNat_charOfNat]
  left
  omega

theorem charDigitVal_digitChar (d : Nat) (h : d < 10) : charDigitVal (digitChar d) = d := by
  rw [charDigitVal, toNat_digitChar d h]
  omega

theorem isDigitCh_digitChar (d : Nat) (h : d < 10) : isDigitCh (digitChar d) = true := by
  rw [isDigitCh, toNat_digitChar d h]
  simp only [Bool.and_eq_true, decide_eq_true_eq]
  omega

theorem natChars_all_digits (n : Nat) : (natChars n).all isDigitCh = true := by
  rw [natChars, List.all_eq_true]
  intro c hc
  rw [List.mem_reverse] at hc
  obtain ⟨d, hd, rfl⟩ := List.mem_map.mp hc
  exact isDigitCh_digitChar d (Nat.digits_lt_base (by norm_num) hd)

theorem foldl_digits_reverse (l : List Nat) (hl : ∀ d ∈ l, d < 10) :
    ∀ acc : Nat,
      ((l.map digitChar).reverse).foldl (fun a c => a * 10 + charDigitVal c) acc
        = acc * 10 ^ l.length + Nat.ofDigits 10 l := by
  induction l with
  | nil => intro acc; simp
  | cons d rest ih =>
    intro acc
    have hd : d < 10 := hl d (by simp)
    have hrest : ∀ x ∈ rest, x < 10 := fun x hx => hl x (by simp [hx])
    simp only [List.map_cons, List.reverse_cons, List.foldl_append, List.foldl_cons,
      List.foldl_nil]
    rw [ih hrest acc, charDigitVal_digitChar d hd, Nat.ofDigits_cons]
    simp only [List.length_cons]
    ring

theorem natFromChars_natChars (n : Nat) : natFromChars (natChars n) = n := by
  rw [natFromChars, natChars]
  rw [foldl_digits_reverse (Nat.digits 10 n)
    (fun d hd => Nat.digits_lt_base (by norm_num) hd) 0]
  simp [Nat.ofDigits_digits]

theorem isDigitCh_bounds (c : Char) (h : isDigitCh c = true) :
    48 ≤ c.toNat ∧ c.toNat ≤ 57 := by
  rw [isDigitCh, Bool.and_eq_true, decide_eq_true_eq, decide_eq_true_eq] at h
  exact h

theorem isDigitCh_ne_quote_dash (c : Char) (h : isDigitCh c = true) :
    c ≠ '"' ∧ c ≠ '-' := by
  obtain ⟨h1, h2⟩ := isDigitCh_bounds c h
  constructor
  · intro he
    rw [he] at h1
    exact absurd h1 (by decide)
  · intro he
    rw [he] at h1
    exact absurd h1 (by decide)

theorem natChars_ne_nil (n : Nat) (h : 0 < n) : natChars n ≠ [] := by
  rw [natChars]
  intro he
  have hd : Nat.digits 10 n = [] := by
    have := congrArg List.length he
    simp at this
    exact List.length_eq_zero.mp (by simp [this])
  rw [Nat.digits_eq_nil_iff_eq_zero] at hd
  omega

theorem jsonParse_num (n : Int) : jsonParseChars (jsonNumChars n) = some (JsonValue.num n) := by
  by_cases h0 : n = 0
  · subst h0
    decide
  · by_cases hpos : 0 < n
    · rw [jsonNumChars, if_neg h0, if_pos hpos]
      have hne := natChars_ne_nil n.toNat (by omega)
      have hall := natChars_all_digits n.toNat
      rcases hc : natChars n.toNat with _ | ⟨c, cs⟩
      · exact absurd hc hne
      · rw [hc] at hall
        rw [List.all_cons, Bool.and_eq_true] at hall
        obtain ⟨hq, hd⟩ := isDigitCh_ne_quote_dash c hall.1
        rw [jsonParseChars, if_neg hq, if_neg hd,
          if_pos (by rw [List.all_cons, Bool.and_eq_true]; exact hall)]
        have := natFromChars_natChars n.toNat
        rw [hc] at this
        rw [this, Int.toNat_of_nonneg (by omega)]
    · have hneg : 0 < -n := by omega
      rw [jsonNumChars, if_neg h0, if_neg hpos]
      have hne := natChars_ne_nil (-n).toNat (by omega)
      have hall := natChars_all_digits (-n).toNat
      rw [jsonParseChars, if_neg (by decide), if_pos rfl,
        if_pos ⟨hne, hall⟩]
      rw [natFromChars_natChars, Int.toNat_of_nonneg (by omega)]
      simp

theorem hexVal_hexDigitChar (d : Nat) (h : d < 16) :
    hexVal (hexDigitChar d) = some d := by
  by_cases h10 : d < 10
  · rw [hexDigitChar, if_pos h10, hexVal, toNat_charOfNat _ (by left; omega),
      if_pos (by omega)]
    congr 1
    omega
  · rw [hexDigitChar, if_neg h10, hexVal, toNat_charOfNat _ (by left; omega)]
    rw [if_neg (by omega), if_pos (by omega)]
    congr 1
    omega

theorem parseStringBody_escape : ∀ (l tail : List Char),
    parseStringBody ((l.map escapeChar).flatten ++ '"' :: tail) = some (l, tail) := by
  intro l
  induction l with
  | nil =>
    intro tail
    rw [List.map_nil, List.flatten_nil, List.nil_append]
    rw [parseStringBody.eq_def]
    try dsimp only
    rw [if_pos rfl]
  | cons c l ih =>
    intro tail
    rw [List.map_cons, List.flatten_cons, List.append_assoc]
    by_cases hq : c = '"'
    · subst hq
      rw [(by decide : escapeChar '"' = ['\\', '"'])]
      rw [List.cons_append, List.cons_append, List.nil_append]
      rw [parseStringBody.eq_def]
      try dsimp only
      rw [if_neg (by decide), if_pos rfl]
      try dsimp only
      rw [if_pos rfl, ih tail]
      rfl
    · by_cases hb : c = '\\'
      · subst hb
        rw [(by decide : escapeChar '\\' = ['\\', '\\'])]
        rw [List.cons_append, List.cons_append, List.nil_append]
        rw [parseStringBody.eq_def]
        try dsimp only
        rw [if_neg (by decide), if_pos rfl]
        try dsimp only
        rw [if_neg (by decide), if_pos rfl, ih tail]
        rfl
      · by_cases h08 : c = '\x08'
        · subst h08
          rw [(by decide : escapeChar '\x08' = ['\\', 'b'])]
          rw [List.cons_append, List.cons_append, List.nil_append]
          rw [parseStringBody.eq_def]
          try dsimp only
          rw [if_neg (by decide), if_pos rfl]
          try dsimp only
          rw [if_neg (by decide), if_neg (by decide), if_neg (by decide),
            if_pos rfl, ih tail]
          rfl
        · by_cases h09 : c = '\x09'
          · subst h09
            rw [(by decide : escapeChar '\x09' = ['\\', 't'])]
            rw [List.cons_append, List.cons_append, List.nil_append]
            rw [parseStringBody.eq_def]
            try dsimp only
            rw [if_neg (by decide), if_pos rfl]
            try dsimp only
            rw [if_neg (by decide), if_neg (by decide), if_neg (by decide),
              if_neg (by decide), if_pos rfl, ih tail]
            rfl
          · by_cases h0a : c = '\x0a'
            · subst h0a
              rw [(by decide : escapeChar '\x0a' = ['\\', 'n'])]
              rw [List.cons_append, List.cons_append, List.nil_append]
              rw [parseStringBody.eq_def]
              try dsimp only
              rw [if_neg (by decide), if_pos rfl]
              try dsimp only
              rw [if_neg (by decide), if_neg (by decide), if_neg (by decide),
                if_neg (by decide), if_neg (by decide), if_pos rfl, ih tail]
              rfl
            · by_cases h0c : c = '\x0c'
              · subst h0c
                rw [(by decide : escapeChar '\x0c' = ['\\', 'f'])]
                rw [List.cons_append, List.cons_append, List.nil_append]
                rw [parseStringBody.eq_def]
                try dsimp only
                rw [if_neg (by decide), if_pos rfl]
                try dsimp only
                rw [if_neg (by decide), if_neg (by decide), if_neg (by decide),
                  if_neg (by decide), if_neg (by decide), if_neg (by decide),
                  if_pos rfl, ih tail]
                rfl
              · by_cases h0d : c = '\x0d'
                · subst h0d
                  rw [(by decide : escapeChar '\x0d' = ['\\', 'r'])]
                  rw [List.cons_append, List.cons_append, List.nil_append]
                  rw [parseStringBody.eq_def]
                  try dsimp only
                  rw [if_neg (by decide), if_pos rfl]
                  try dsimp only
                  rw [if_neg (by decide), if_neg (by decide), if_neg (by decide),
                    if_neg (by decide), if_neg (by decide), if_neg (by decide),
                    if_neg (by decide), if_pos rfl, ih tail]
                  rfl
                · by_cases hctrl : c.toNat < 32
                  · rw [escapeChar, if_neg hq, if_neg hb, if_neg h08, if_neg h09,
                      if_neg h0a, if_neg h0c, if_neg h0d, if_pos hctrl]
                    rw [List.cons_append, List.cons_append, List.cons_append,
                      List.cons_append, List.cons_append, List.cons_append,
                      List.nil_append]
                    rw [parseStringBody.eq_def]
                    try dsimp only
                    rw [if_neg (by decide), if_pos rfl]
                    try dsimp only
                    rw [if_neg (by decide), if_neg (by decide), if_neg (by decide),
                      if_neg (by decide), if_neg (by decide), if_neg (by decide),
                      if_neg (by decide), if_neg (by decide), if_pos rfl]
                    try dsimp only
                    rw [(by decide : hexVal '0' = some 0)]
                    rw [hexVal_hexDigitChar (c.toNat / 16) (by omega)]
                    rw [hexVal_hexDigitChar (c.toNat % 16) (by omega)]
                    try dsimp only
                    rw [(by omega :
                      0 * 4096 + 0 * 256 + c.toNat / 16 * 16 + c.toNat % 16 = c.toNat)]
                    rw [charOfNat?_toNat c]
                    try dsimp only
                    rw [ih tail]
                    rfl
                  · rw [escapeChar, if_neg hq, if_neg hb, if_neg h08, if_neg h09,
                      if_neg h0a, if_neg h0c, if_neg h0d, if_neg hctrl]
                    rw [List.cons_append, List.nil_append]
                    rw [parseStringBody.eq_def]
                    try dsimp only
                    rw [if_neg hq, if_neg hb, if_neg hctrl]
                    rw [ih tail]
                    rfl

theorem jsonParse_stringify (v : JsonValue) :
    jsonParseChars (jsonStringifyChars v) = some v := by
  cases v with
  | num n => exact jsonParse_num n
  | str s =>
    rw [jsonStringifyChars]
    rw [jsonParseChars, if_pos rfl]
    have h := parseStringBody_escape s.data []
    rw [h]

theorem utf8EncodeChar_bytes_lt (c : Char) : ∀ b ∈ utf8EncodeChar c, b < 256 := by
  have hlt := char_toNat_lt_size c
  intro b hb
  rw [utf8EncodeChar] at hb
  try dsimp only at hb
  by_cases h1 : c.toNat < 128
  · rw [if_pos h1] at hb
    simp only [List.mem_singleton] at hb
    omega
  · rw [if_neg h1] at hb
    by_cases h2 : c.toNat < 2048
    · rw [if_pos h2] at hb
      simp only [List.mem_cons, List.not_mem_nil, or_false] at hb
      rcases hb with rfl | rfl <;> omega
    · rw [if_neg h2] at hb
      by_cases h3 : c.toNat < 65536
      · rw [if_pos h3] at hb
        simp only [List.mem_cons, List.not_mem_nil, or_false] at hb
        rcases hb with rfl | rfl | rfl <;> omega
      · rw [if_neg h3] at hb
        simp only [List.mem_cons, List.not_mem_nil, or_false] at hb
        rcases hb with rfl | rfl | rfl | rfl <;> omega

set_option maxHeartbeats 1600000 in
set_option maxRecDepth 4096 in
theorem utf8Decode_encodeChar (c : Char) (rest : List Nat) :
    utf8Decode (utf8EncodeChar c ++ rest) = (utf8Decode rest).map (c :: ·) := by
  have hlt := char_toNat_lt_size c
  rw [utf8EncodeChar]
  try dsimp only
  by_cases h1 : c.toNat < 128
  · rw [if_pos h1, List.cons_append, List.nil_append]
    rw [utf8Decode.eq_def]
    try dsimp only
    rw [if_pos h1, charOfNat?_toNat c]
    try rfl
  · rw [if_neg h1]
    by_cases h2 : c.toNat < 2048
    · rw [if_pos h2, List.cons_append, List.cons_append, List.nil_append]
      rw [utf8Decode.eq_def]
      try dsimp only
      rw [if_neg (by omega), if_neg (by omega), if_pos (by omega)]
      rw [if_pos (by constructor <;> omega)]
      try dsimp only
      rw [if_pos (by omega)]
      rw [(by omega : (192 + c.toNat / 64 - 192) * 64 + (128 + c.toNat % 64 - 128)
        = c.toNat)]
      rw [charOfNat?_toNat c]
      try rfl
    · by_cases h3 : c.toNat < 65536
      · rw [if_neg h2, if_pos h3, List.cons_append, List.cons_append,
          List.cons_append, List.nil_append]
        rw [utf8Decode.eq_def]
        try dsimp only
        rw [if_neg (by omega), if_neg (by omega), if_neg (by omega),
          if_pos (by omega)]
        rw [if_pos (by refine ⟨⟨?_, ?_⟩, ?_, ?_⟩ <;> omega)]
        try dsimp only
        rw [if_pos (by omega)]
        rw [(by omega : (224 + c.toNat / 4096 - 224) * 4096
          + (128 + c.toNat / 64 % 64 - 128) * 64 + (128 + c.toNat % 64 - 128)
          = c.toNat)]
        rw [charOfNat?_toNat c]
        try rfl
      · rw [if_neg h2, if_neg h3, List.cons_append, List.cons_append,
          List.cons_append, List.cons_append, List.nil_append]
        rw [utf8Decode.eq_def]
        try dsimp only
        rw [if_neg (by omega), if_neg (by omega), if_neg (by omega),
          if_neg (by omega), if_pos (by omega)]
        rw [if_pos (by refine ⟨⟨?_, ?_⟩, ⟨?_, ?_⟩, ?_, ?_⟩ <;> omega)]
        try dsimp only
        rw [if_pos (by omega)]
        rw [(by omega : (240 + c.toNat / 262144 - 240) * 262144
          + (128 + c.toNat / 4096 % 64 - 128) * 4096
          + (128 + c.toNat / 64 % 64 - 128) * 64 + (128 + c.toNat % 64 - 128)
          = c.toNat)]
        rw [charOfNat?_toNat c]
        try rfl

set_option maxHeartbeats 1600000 in
theorem utf8Decode_utf8Encode (l : List Char) : utf8Decode (utf8Encode l) = some l := by
  induction l with
  | nil =>
    show utf8Decode [] = some []
    rfl
  | cons c rest ih =>
    rw [utf8Encode, List.map_cons, List.flatten_cons]
    rw [utf8Decode_encodeChar c ((rest.map utf8EncodeChar).flatten)]
    have ih' : utf8Decode ((rest.map utf8EncodeChar).flatten) = some rest := ih
    rw [ih']
    rfl

theorem utf8Encode_bytes_lt (l : List Char) : ∀ b ∈ utf8Encode l, b < 256 := by
  intro b hb
  rw [utf8Encode] at hb
  rw [List.mem_flatten] at hb
  obtain ⟨bl, hbl, hbmem⟩ := hb
  obtain ⟨c, _, rfl⟩ := List.mem_map.mp hbl
  exact utf8EncodeChar_bytes_lt c b hbmem

theorem b64Val_b64Char (d : Nat) (h : d < 64) : b64Val (b64Char d) = some d := by
  rw [b64Char]
  by_cases h1 : d < 26
  · rw [if_pos h1, b64Val, toNat_charOfNat _ (by left; omega), if_pos (by omega)]
    congr 1
    omega
  · rw [if_neg h1]
    by_cases h2 : d < 52
    · rw [if_pos h2, b64Val, toNat_charOfNat _ (by left; omega)]
      rw [if_neg (by omega), if_pos (by omega)]
      congr 1
      omega
    · rw [if_neg h2]
      by_cases h3 : d < 62
      · rw [if_pos h3, b64Val, toNat_charOfNat _ (by left; omega)]
        rw [if_neg (by omega), if_neg (by omega), if_pos (by omega)]
        congr 1
        omega
      · rw [if_neg h3]
        by_cases h4 : d = 62
        · subst h4
          rw [if_pos rfl]
          decide
        · rw [if_neg h4]
          have h63 : d = 63 := by omega
          subst h63
          decide

theorem b64Char_ne_pad (d : Nat) : b64Char d ≠ '=' := by
  have h61 : ('=' : Char).toNat = 61 := by decide
  rw [b64Char]
  by_cases h1 : d < 26
  · rw [if_pos h1]
    intro h
    have := congrArg Char.toNat h
    rw [toNat_charOfNat _ (by left; omega), h61] at this
    omega
  · rw [if_neg h1]
    by_cases h2 : d < 52
    · rw [if_pos h2]
      intro h
      have := congrArg Char.toNat h
      rw [toNat_charOfNat _ (by left; omega), h61] at this
      omega
    · rw [if_neg h2]
      by_cases h3 : d < 62
      · rw [if_pos h3]
        intro h
        have := congrArg Char.toNat h
        rw [toNat_charOfNat _ (by left; omega), h61] at this
        omega
      · rw [if_neg h3]
        by_cases h4 : d = 62
        · rw [if_pos h4]
          decide
        · rw [if_neg h4]
          decide

theorem b64CoreFilter_roundtrip : ∀ (bs : List Nat), (∀ b ∈ bs, b < 256) →
    b64DecodeCore ((b64EncodeBytes bs).filter (fun c => c != '=')) = some bs
  | [] => fun _ => rfl
  | [b1] => fun h => by
    have hb1 : b1 < 256 := h b1 (by simp)
    rw [b64EncodeBytes]
    have hx1 : ((b64Char (b1 / 4) != '=') = true) := bne_iff_ne.mpr (b64Char_ne_pad _)
    have hx2 : ((b64Char (b1 % 4 * 16) != '=') = true) :=
      bne_iff_ne.mpr (b64Char_ne_pad _)
    simp only [List.filter_cons, hx1, hx2, (by decide : (('=' : Char) != '=') = false),
      if_true, if_false, Bool.false_eq_true, List.filter_nil]
    rw [b64DecodeCore.eq_def]
    try dsimp only
    rw [b64Val_b64Char (b1 / 4) (by omega), b64Val_b64Char (b1 % 4 * 16) (by omega)]
    dsimp only
    congr 1
    congr 1
    omega
  | [b1, b2] => fun h => by
    have hb1 : b1 < 256 := h b1 (by simp)
    have hb2 : b2 < 256 := h b2 (by simp)
    rw [b64EncodeBytes]
    have hx1 : ((b64Char (b1 / 4) != '=') = true) := bne_iff_ne.mpr (b64Char_ne_pad _)
    have hx2 : ((b64Char (b1 % 4 * 16 + b2 / 16) != '=') = true) :=
      bne_iff_ne.mpr (b64Char_ne_pad _)
    have hx3 : ((b64Char (b2 % 16 * 4) != '=') = true) :=
      bne_iff_ne.mpr (b64Char_ne_pad _)
    simp only [List.filter_cons, hx1, hx2, hx3,
      (by decide : (('=' : Char) != '=') = false), if_true, if_false,
      Bool.false_eq_true, List.filter_nil]
    rw [b64DecodeCore.eq_def]
    try dsimp only
    rw [b64Val_b64Char (b1 / 4) (by omega),
      b64Val_b64Char (b1 % 4 * 16 + b2 / 16) (by omega),
      b64Val_b64Char (b2 % 16 * 4) (by omega)]
    dsimp only
    congr 1
    congr 1
    · omega
    · congr 1
      omega
  | b1 :: b2 :: b3 :: (rest1 :: rest2) => fun h => by
    have hb1 : b1 < 256 := h b1 (by simp)
    have hb2 : b2 < 256 := h b2 (by simp)
    have hb3 : b3 < 256 := h b3 (by simp)
    have ih := b64CoreFilter_roundtrip (rest1 :: rest2)
      (fun b hb => h b (by simp at hb ⊢; tauto))
    rw [b64EncodeBytes]
    have hx1 : ((b64Char (b1 / 4) != '=') = true) := bne_iff_ne.mpr (b64Char_ne_pad _)
    have hx2 : ((b64Char (b1 % 4 * 16 + b2 / 16) != '=') = true) :=
      bne_iff_ne.mpr (b64Char_ne_pad _)
    have hx3 : ((b64Char (b2 % 16 * 4 + b3 / 64) != '=') = true) :=
      bne_iff_ne.mpr (b64Char_ne_pad _)
    have hx4 : ((b64Char (b3 % 64) != '=') = true) :=
      bne_iff_ne.mpr (b64Char_ne_pad _)
    simp only [List.filter_cons, hx1, hx2, hx3, hx4, if_true]
    rw [b64DecodeCore.eq_def]
    try dsimp only
    rw [b64Val_b64Char (b1 / 4) (by omega),
      b64Val_b64Char (b1 % 4 * 16 + b2 / 16) (by omega),
      b64Val_b64Char (b2 % 16 * 4 + b3 / 64) (by omega),
      b64Val_b64Char (b3 % 64) (by omega), ih]
    dsimp only
    congr 1
    congr 1
    · omega
    · congr 1
      · omega
      · congr 1
        omega
  | [b1, b2, b3] => fun h => by
    have hb1 : b1 < 256 := h b1 (by simp)
    have hb2 : b2 < 256 := h b2 (by simp)
    have hb3 : b3 < 256 := h b3 (by simp)
    have ih := b64CoreFilter_roundtrip ([] : List Nat) (fun b hb => by simp at hb)
    rw [b64EncodeBytes]
    have hx1 : ((b64Char (b1 / 4) != '=') = true) := bne_iff_ne.mpr (b64Char_ne_pad _)
    have hx2 : ((b64Char (b1 % 4 * 16 + b2 / 16) != '=') = true) :=
      bne_iff_ne.mpr (b64Char_ne_pad _)
    have hx3 : ((b64Char (b2 % 16 * 4 + b3 / 64) != '=') = true) :=
      bne_iff_ne.mpr (b64Char_ne_pad _)
    have hx4 : ((b64Char (b3 % 64) != '=') = true) :=
      bne_iff_ne.mpr (b64Char_ne_pad _)
    simp only [List.filter_cons, hx1, hx2, hx3, hx4, if_true]
    rw [b64DecodeCore.eq_def]
    try dsimp only
    rw [b64Val_b64Char (b1 / 4) (by omega),
      b64Val_b64Char (b1 % 4 * 16 + b2 / 16) (by omega),
      b64Val_b64Char (b2 % 16 * 4 + b3 / 64) (by omega),
      b64Val_b64Char (b3 % 64) (by omega), ih]
    dsimp only
    congr 1
    congr 1
    · omega
    · congr 1
      · omega
      · congr 1
        omega

/-- C7: the cursor encoding round-trips losslessly on the JSON-serializable
scalar sort values the cursors carry — integer numbers, strings (which is
how dates sort once serialized: `JSON.stringify` renders a date as its
quoted ISO string, so an ISO date string is the date-kind cursor value) —
`decodeCursor (encodeCursor v) = v` for every such value, and on the image
of `encodeCursor` the composition `encodeCursor ∘ decodeCursor` is the
identity. -/
theorem cursor_roundtrip (v : JsonValue) :
    decodeCursor (encodeCursor v) = some v
      ∧ (decodeCursor (encodeCursor v)).map encodeCursor = some (encodeCursor v) := by
  have hdata : (encodeCursor v).data = b64EncodeBytes (utf8Encode (jsonStringifyChars v)) :=
    rfl
  have hb : b64DecodeChars (b64EncodeBytes (utf8Encode (jsonStringifyChars v)))
      = some (utf8Encode (jsonStringifyChars v)) := by
    rw [b64DecodeChars]
    exact b64CoreFilter_roundtrip _ (utf8Encode_bytes_lt _)
  have h1 : decodeCursor (encodeCursor v) = some v := by
    rw [decodeCursor, hdata, hb]
    try dsimp only
    rw [utf8Decode_utf8Encode]
    try dsimp only
    exact jsonParse_stringify v
  refine ⟨h1, ?_⟩
  rw [h1]
  rfl
